import Mathlib

/-!
Verification development for the chess rules core of this repository
(src/src/thc/ChessRules.cpp).

The data model and every operation below are shallow embeddings of the C++
source.  Conventions of the embedding:

* A square is a `Nat` in `0..63`, row-major from a8 (= 0) to h1 (= 63),
  exactly the `thc::Square` enumeration; `SQUARE_INVALID` is 64.
* A piece is the `Char` the C++ stores in `squares[]`: upper case for white
  (`'P' 'N' 'B' 'R' 'Q' 'K'`), lower case for black, `' '` for empty.
* The board `squares` is a `List Char` of length 64; `squares[i] = c` becomes
  `List.set`, reads become `List.getD`.
* The mutable `ChessRules` object becomes the immutable record `Position`;
  each C++ member function becomes a function from `Position` (and arguments)
  to its results and/or an updated `Position`.
* `detail_stack` and `history` are `std::vector`s used purely as stacks
  (push_back / back / pop_back, and backwards iteration from the end); they
  are embedded as Lean lists with the most recent element at the head.
* The geometry lookup tables (`GeneratedLookupTables.h`, not part of the
  sources provided) are modelled from the spec, section 4.1: per-square rays
  and single-step candidate lists computed from pure board geometry.
-/

set_option maxRecDepth 8000

/-- The `thc::SPECIAL` tag of a move, one constructor per enumerator. -/
inductive SPECIAL where
  | NOT_SPECIAL
  | SPECIAL_KING_MOVE
  | SPECIAL_WK_CASTLING
  | SPECIAL_BK_CASTLING
  | SPECIAL_WQ_CASTLING
  | SPECIAL_BQ_CASTLING
  | SPECIAL_PROMOTION_QUEEN
  | SPECIAL_PROMOTION_ROOK
  | SPECIAL_PROMOTION_BISHOP
  | SPECIAL_PROMOTION_KNIGHT
  | SPECIAL_WEN_PASSANT
  | SPECIAL_BEN_PASSANT
  | SPECIAL_WPAWN_2SQUARES
  | SPECIAL_BPAWN_2SQUARES
deriving DecidableEq, Repr

open SPECIAL

/-- `thc::Move`: source square, destination square, special tag, captured piece
(`' '` when no capture). -/
structure Move where
  src : Nat
  dst : Nat
  special : SPECIAL
  capture : Char
deriving DecidableEq, Repr

/-- `thc::DETAIL`: king squares, the four castling-allowed flags and the
en-passant target square (64 = `SQUARE_INVALID` when none). -/
structure DETAIL where
  wking_square : Nat
  bking_square : Nat
  wking : Bool
  wqueen : Bool
  bking : Bool
  bqueen : Bool
  enpassant_target : Nat
deriving DecidableEq, Repr

/-- `eq_castling` from the C++ headers: the two DETAILs agree on all four
castling flags. -/
def eq_castling (d1 d2 : DETAIL) : Bool :=
  d1.wking == d2.wking && d1.wqueen == d2.wqueen &&
  d1.bking == d2.bking && d1.bqueen == d2.bqueen

/-- The state of a `thc::ChessRules` object. -/
structure Position where
  squares : List Char
  white : Bool
  d : DETAIL
  detail_stack : List DETAIL
  history : List Move
  half_move_clock : Nat
  full_move_count : Nat
deriving DecidableEq, Repr

/-- `IsEmptySquare` from the C++ headers. -/
def IsEmptySquare (c : Char) : Bool := c == ' '

/-- `IsWhite` from the C++ headers: an upper-case piece character. -/
def IsWhite (c : Char) : Bool :=
  c == 'P' || c == 'N' || c == 'B' || c == 'R' || c == 'Q' || c == 'K'

/-- `IsBlack` from the C++ headers: a lower-case piece character. -/
def IsBlack (c : Char) : Bool :=
  c == 'p' || c == 'n' || c == 'b' || c == 'r' || c == 'q' || c == 'k'

/-- Read a board square (`squares[sq]`). -/
def pieceAt (P : Position) (sq : Nat) : Char := P.squares.getD sq ' '

/-- The castling-rights revocation switch at the top of `ChessRules::PushMove`:
a `switch (m.dst)` in which `case e8` falls through into `case h8` and
`case e1` falls through into `case h1`. -/
def revokeRights (dst : Nat) (d : DETAIL) : DETAIL :=
  if dst = 0 then { d with bqueen := false }                       -- a8
  else if dst = 4 then { d with bqueen := false, bking := false }  -- e8 (falls through to h8)
  else if dst = 7 then { d with bking := false }                   -- h8
  else if dst = 56 then { d with wqueen := false }                 -- a1
  else if dst = 60 then { d with wqueen := false, wking := false } -- e1 (falls through to h1)
  else if dst = 63 then { d with wking := false }                  -- h1
  else d

/-- The board mutation switch of `ChessRules::PushMove` (the `switch
(m.special)` cases restricted to their `squares[]` assignments, in source
order). -/
def pushBoard (white : Bool) (sqs : List Char) (m : Move) : List Char :=
  match m.special with
  | SPECIAL_KING_MOVE =>
      (sqs.set m.dst (sqs.getD m.src ' ')).set m.src ' '
  | SPECIAL_PROMOTION_QUEEN =>
      (sqs.set m.src ' ').set m.dst (if white then 'Q' else 'q')
  | SPECIAL_PROMOTION_ROOK =>
      (sqs.set m.src ' ').set m.dst (if white then 'R' else 'r')
  | SPECIAL_PROMOTION_BISHOP =>
      (sqs.set m.src ' ').set m.dst (if white then 'B' else 'b')
  | SPECIAL_PROMOTION_KNIGHT =>
      (sqs.set m.src ' ').set m.dst (if white then 'N' else 'n')
  | SPECIAL_WEN_PASSANT =>
      ((sqs.set m.src ' ').set m.dst 'P').set (m.dst + 8) ' '
  | SPECIAL_BEN_PASSANT =>
      ((sqs.set m.src ' ').set m.dst 'p').set (m.dst - 8) ' '
  | SPECIAL_WPAWN_2SQUARES =>
      (sqs.set m.src ' ').set m.dst 'P'
  | SPECIAL_BPAWN_2SQUARES =>
      (sqs.set m.src ' ').set m.dst 'p'
  | SPECIAL_WK_CASTLING =>
      (((sqs.set 60 ' ').set 61 'R').set 62 'K').set 63 ' '
  | SPECIAL_WQ_CASTLING =>
      (((sqs.set 60 ' ').set 59 'R').set 58 'K').set 56 ' '
  | SPECIAL_BK_CASTLING =>
      (((sqs.set 4 ' ').set 5 'r').set 6 'k').set 7 ' '
  | SPECIAL_BQ_CASTLING =>
      (((sqs.set 4 ' ').set 3 'r').set 2 'k').set 0 ' '
  | NOT_SPECIAL =>
      (sqs.set m.dst (sqs.getD m.src ' ')).set m.src ' '

/-- The DETAIL mutation switch of `ChessRules::PushMove` (the same `switch
(m.special)` restricted to its `d` assignments), applied after the
destination-square rights revocation and the en-passant clear. -/
def pushDetail (white : Bool) (d1 : DETAIL) (m : Move) : DETAIL :=
  match m.special with
  | SPECIAL_KING_MOVE =>
      if white then { d1 with wking_square := m.dst }
      else { d1 with bking_square := m.dst }
  | SPECIAL_WPAWN_2SQUARES => { d1 with enpassant_target := m.dst + 8 }
  | SPECIAL_BPAWN_2SQUARES => { d1 with enpassant_target := m.dst - 8 }
  | SPECIAL_WK_CASTLING => { d1 with wking_square := 62 }
  | SPECIAL_WQ_CASTLING => { d1 with wking_square := 58 }
  | SPECIAL_BK_CASTLING => { d1 with bking_square := 6 }
  | SPECIAL_BQ_CASTLING => { d1 with bking_square := 2 }
  | _ => d1

/-- `ChessRules::PushMove`: push the current DETAIL, revoke castling rights by
destination square, clear then possibly re-set the en-passant target, mutate
the board according to the special tag, toggle the side to move. -/
def PushMove (P : Position) (m : Move) : Position :=
  { P with
    squares := pushBoard P.white P.squares m,
    d := pushDetail P.white
           { revokeRights m.dst P.d with enpassant_target := 64 } m,
    white := !P.white,
    detail_stack := P.d :: P.detail_stack }

/-- The board mutation switch of `ChessRules::PopMove`: `white` here is the
side that made the move (the C++ reads `white` after toggling it back). -/
def popBoard (white : Bool) (sqs : List Char) (m : Move) : List Char :=
  match m.special with
  | SPECIAL_PROMOTION_QUEEN | SPECIAL_PROMOTION_ROOK
  | SPECIAL_PROMOTION_BISHOP | SPECIAL_PROMOTION_KNIGHT =>
      (sqs.set m.src (if white then 'P' else 'p')).set m.dst m.capture
  | SPECIAL_WEN_PASSANT =>
      ((sqs.set m.src 'P').set m.dst ' ').set (m.dst + 8) 'p'
  | SPECIAL_BEN_PASSANT =>
      ((sqs.set m.src 'p').set m.dst ' ').set (m.dst - 8) 'P'
  | SPECIAL_WK_CASTLING =>
      (((sqs.set 60 'K').set 61 ' ').set 62 ' ').set 63 'R'
  | SPECIAL_WQ_CASTLING =>
      (((sqs.set 60 'K').set 59 ' ').set 58 ' ').set 56 'R'
  | SPECIAL_BK_CASTLING =>
      (((sqs.set 4 'k').set 5 ' ').set 6 ' ').set 7 'r'
  | SPECIAL_BQ_CASTLING =>
      (((sqs.set 4 'k').set 3 ' ').set 2 ' ').set 0 'r'
  | _ =>
      (sqs.set m.src (sqs.getD m.dst ' ')).set m.dst m.capture

/-- `ChessRules::PopMove`: restore the DETAIL from the stack, toggle the side
to move back, reverse the board mutation according to the special tag. -/
def PopMove (P : Position) (m : Move) : Position :=
  { P with
    squares := popBoard (!P.white) P.squares m,
    d := P.detail_stack.headD P.d,
    detail_stack := P.detail_stack.tail,
    white := !P.white }

/-- Claim C5: castling-rights revocation in `PushMove` is a function of the
move's destination square only: landing on a1 (56) or e1 (60) clears the
white queenside right, landing on e1 (60) or h1 (63) clears the white
kingside right (e1 falls through and clears both), landing on a8 (0) or
e8 (4) clears the black queenside right, landing on e8 (4) or h8 (7) clears
the black kingside right; each flag after the move is the previous flag
masked by that destination-only test, so no move changes any castling flag
because of its source square. -/
theorem c5_castling_revocation_destination_only (P : Position) (m : Move) :
    ((PushMove P m).d.wqueen = (P.d.wqueen && !(m.dst = 56 || m.dst = 60))) ∧
    ((PushMove P m).d.wking = (P.d.wking && !(m.dst = 60 || m.dst = 63))) ∧
    ((PushMove P m).d.bqueen = (P.d.bqueen && !(m.dst = 0 || m.dst = 4))) ∧
    ((PushMove P m).d.bking = (P.d.bking && !(m.dst = 4 || m.dst = 7))) := by
  have hflags : ∀ (w : Bool) (d1 : DETAIL) (mv : Move),
      (pushDetail w d1 mv).wking = d1.wking ∧
      (pushDetail w d1 mv).wqueen = d1.wqueen ∧
      (pushDetail w d1 mv).bking = d1.bking ∧
      (pushDetail w d1 mv).bqueen = d1.bqueen := by
    intro w d1 mv
    cases hs : mv.special <;> simp [pushDetail, hs] <;> cases w <;> simp
  have h := hflags P.white { revokeRights m.dst P.d with enpassant_target := 64 } m
  simp only [PushMove] at *
  refine ⟨?_, ?_, ?_, ?_⟩ <;>
    · rw [show ∀ x : DETAIL, ({ x with enpassant_target := 64 } : DETAIL).wking = x.wking from fun _ => rfl] at *
      first
      | (rw [h.1]; unfold revokeRights; split_ifs <;> simp_all)
      | (rw [h.2.1]; unfold revokeRights; split_ifs <;> simp_all)
      | (rw [h.2.2.1]; unfold revokeRights; split_ifs <;> simp_all)
      | (rw [h.2.2.2]; unfold revokeRights; split_ifs <;> simp_all)

/-! ## Geometry tables

Modelled from the spec, section 4.1: the repository builds per-square,
per-piece-type lookup tables (`GeneratedLookupTables.h`, not among the
provided sources) once from pure board geometry.  A ray is the ordered list
of squares outward from the origin to the board edge in one of the eight
compass directions; knight and king tables are the in-board candidate
destinations; pawn tables have separate capture-diagonal and straight-advance
lists. -/

/-- Squares outward from board coordinate `(file, row)` in direction
`(df, dr)` (row 0 is rank 8), up to the board edge.  Fuel 7 suffices on an
8×8 board. -/
def raySquares (file row df dr : Int) : Nat → List Nat
  | 0 => []
  | n + 1 =>
    let f := file + df
    let r := row + dr
    if 0 ≤ f ∧ f < 8 ∧ 0 ≤ r ∧ r < 8 then
      (r * 8 + f).toNat :: raySquares f r df dr n
    else []

/-- The ray from square `sq` in direction `(df, dr)`. -/
def rayFrom (sq : Nat) (df dr : Int) : List Nat :=
  raySquares (sq % 8 : Nat) (sq / 8 : Nat) df dr 7

/-- Rook directions: north, south, west, east (row 0 is rank 8, so north is
`dr = -1`). -/
def rookDirs : List (Int × Int) := [(0, -1), (0, 1), (-1, 0), (1, 0)]

/-- Bishop directions: the four diagonals. -/
def bishopDirs : List (Int × Int) := [(-1, -1), (1, -1), (-1, 1), (1, 1)]

/-- Single-step candidate squares reachable from `sq` by the given offsets. -/
def offsetSquares (sq : Nat) (offs : List (Int × Int)) : List Nat :=
  offs.filterMap fun o =>
    let f : Int := ((sq % 8 : Nat) : Int) + o.1
    let r : Int := ((sq / 8 : Nat) : Int) + o.2
    if 0 ≤ f ∧ f < 8 ∧ 0 ≤ r ∧ r < 8 then some (r * 8 + f).toNat else none

/-- The knight lookup table entry for `sq`. -/
def knightSquares (sq : Nat) : List Nat :=
  offsetSquares sq [(1, -2), (2, -1), (2, 1), (1, 2), (-1, 2), (-2, 1), (-2, -1), (-1, -2)]

/-- The king lookup table entry for `sq` (single-step moves only). -/
def kingSquares (sq : Nat) : List Nat :=
  offsetSquares sq [(0, -1), (1, -1), (1, 0), (1, 1), (0, 1), (-1, 1), (-1, 0), (-1, -1)]

/-! ## Attack testing (`ChessRules::AttackedSquare` / `AttackedPiece`)

The C++ walks precomputed attack rays with per-square piece masks.  The rays
are the eight queen directions; the mask at distance `k` in a rook direction
admits rook, queen, and (at `k = 1`) king attackers; in a bishop direction it
admits bishop, queen, (at `k = 1`) king, and (at `k = 1`, on the two
southern diagonals for a white attacker or the two northern diagonals for a
black attacker) pawn attackers.  Each ray stops at its first occupied
square.  A separate knight-table pass finds knight attackers. -/

/-- First occupied square along a ray: returns the 1-based distance and the
occupying piece. -/
def firstOcc (sqs : List Char) : List Nat → Nat → Option (Nat × Char)
  | [], _ => none
  | s :: rest, k =>
    let pc := sqs.getD s ' '
    if pc = ' ' then firstOcc sqs rest (k + 1) else some (k, pc)

/-- Does the first occupied square of the ray from `sq` in direction `dir`
hold an enemy piece whose attack mask covers `sq`?  `isRook` selects the
rook-direction or bishop-direction mask. -/
def slideAttack (sqs : List Char) (enemyWhite : Bool) (sq : Nat)
    (dir : Int × Int) (isRook : Bool) : Bool :=
  match firstOcc sqs (rayFrom sq dir.1 dir.2) 1 with
  | none => false
  | some (k, pc) =>
    if enemyWhite then
      if isRook then pc == 'R' || pc == 'Q' || (k == 1 && pc == 'K')
      else pc == 'B' || pc == 'Q' || (k == 1 && pc == 'K') ||
           (k == 1 && pc == 'P' && dir.2 == 1)
    else
      if isRook then pc == 'r' || pc == 'q' || (k == 1 && pc == 'k')
      else pc == 'b' || pc == 'q' || (k == 1 && pc == 'k') ||
           (k == 1 && pc == 'p' && dir.2 == -1)

/-- `ChessRules::AttackedSquare`: is `sq` attacked by a piece of the given
colour? -/
def AttackedSquare (P : Position) (sq : Nat) (enemyWhite : Bool) : Bool :=
  rookDirs.any (fun dir => slideAttack P.squares enemyWhite sq dir true) ||
  bishopDirs.any (fun dir => slideAttack P.squares enemyWhite sq dir false) ||
  (knightSquares sq).any
    (fun s => P.squares.getD s ' ' == (if enemyWhite then 'N' else 'n'))

/-- `ChessRules::AttackedPiece`: attack test for an occupied square, taking
the attacker colour from the occupant. -/
def AttackedPiece (P : Position) (sq : Nat) : Bool :=
  AttackedSquare P sq (IsBlack (P.squares.getD sq ' '))

/-! ## Move generation (`ChessRules::GenMoveList` and helpers) -/

/-- One ray of `ChessRules::LongMoves`: emit a quiet move per empty square,
stop at the first occupied square, adding a capture if it holds an enemy
piece. -/
def longRay (white : Bool) (sqs : List Char) (src : Nat) : List Nat → List Move
  | [] => []
  | dst :: rest =>
    let piece := sqs.getD dst ' '
    if IsEmptySquare piece then
      ⟨src, dst, NOT_SPECIAL, ' '⟩ :: longRay white sqs src rest
    else if (white && IsBlack piece) || (!white && IsWhite piece) then
      [⟨src, dst, NOT_SPECIAL, piece⟩]
    else []

/-- `ChessRules::LongMoves` over a list of rays. -/
def longMoves (white : Bool) (sqs : List Char) (src : Nat)
    (rays : List (List Nat)) : List Move :=
  rays.flatMap (longRay white sqs src)

/-- `ChessRules::ShortMoves`: single-step moves to empty or enemy-occupied
squares, tagged with the given special. -/
def shortMoves (white : Bool) (sqs : List Char) (src : Nat)
    (dsts : List Nat) (special : SPECIAL) : List Move :=
  dsts.filterMap fun dst =>
    let piece := sqs.getD dst ' '
    if IsEmptySquare piece then some ⟨src, dst, special, ' '⟩
    else if (white && IsBlack piece) || (!white && IsWhite piece) then
      some ⟨src, dst, special, piece⟩
    else none

/-- The capture-diagonal table entry for a white pawn on `sq` (modelled from
the spec: the in-board northwest and northeast diagonals). -/
def whitePawnCaptureSquares (sq : Nat) : List Nat :=
  if sq < 8 then []
  else (if sq % 8 ≠ 0 then [sq - 9] else []) ++
       (if sq % 8 ≠ 7 then [sq - 7] else [])

/-- The straight-advance table entry for a white pawn on `sq`: one step
north, and the double step from the home rank. -/
def whitePawnAdvanceSquares (sq : Nat) : List Nat :=
  if sq < 8 then []
  else [sq - 8] ++ (if 48 ≤ sq ∧ sq ≤ 55 then [sq - 16] else [])

/-- The capture-diagonal table entry for a black pawn on `sq`. -/
def blackPawnCaptureSquares (sq : Nat) : List Nat :=
  if 56 ≤ sq then []
  else (if sq % 8 ≠ 0 then [sq + 7] else []) ++
       (if sq % 8 ≠ 7 then [sq + 9] else [])

/-- The straight-advance table entry for a black pawn on `sq`. -/
def blackPawnAdvanceSquares (sq : Nat) : List Nat :=
  if 56 ≤ sq then []
  else [sq + 8] ++ (if 8 ≤ sq ∧ sq ≤ 15 then [sq + 16] else [])

/-- The advance loop shared by `WhitePawnMoves` / `BlackPawnMoves`: stop at
the first occupied square; the first step is `NOT_SPECIAL`, the second the
double-advance tag; on the promotion rank emit the four promotion variants
in the order queen, knight, bishop, rook. -/
def pawnAdvance (sqs : List Char) (src : Nat) (promotion : Bool)
    (twoTag : SPECIAL) : List Nat → Nat → List Move
  | [], _ => []
  | dst :: rest, i =>
    if !IsEmptySquare (sqs.getD dst ' ') then []
    else
      (if !promotion then
        [⟨src, dst, if i = 0 then NOT_SPECIAL else twoTag, ' '⟩]
       else
        [⟨src, dst, SPECIAL_PROMOTION_QUEEN, ' '⟩,
         ⟨src, dst, SPECIAL_PROMOTION_KNIGHT, ' '⟩,
         ⟨src, dst, SPECIAL_PROMOTION_BISHOP, ' '⟩,
         ⟨src, dst, SPECIAL_PROMOTION_ROOK, ' '⟩]) ++
      pawnAdvance sqs src promotion twoTag rest (i + 1)

/-- `ChessRules::WhitePawnMoves`. -/
def whitePawnMoves (P : Position) (sq : Nat) : List Move :=
  let promotion := sq / 8 = 1      -- RANK(square) == '7'
  (whitePawnCaptureSquares sq).flatMap (fun dst =>
    if dst = P.d.enpassant_target then
      [⟨sq, dst, SPECIAL_WEN_PASSANT, 'p'⟩]
    else if IsBlack (P.squares.getD dst ' ') then
      let capture := P.squares.getD dst ' '
      if !promotion then [⟨sq, dst, NOT_SPECIAL, capture⟩]
      else
        [⟨sq, dst, SPECIAL_PROMOTION_QUEEN, capture⟩,
         ⟨sq, dst, SPECIAL_PROMOTION_KNIGHT, capture⟩,
         ⟨sq, dst, SPECIAL_PROMOTION_BISHOP, capture⟩,
         ⟨sq, dst, SPECIAL_PROMOTION_ROOK, capture⟩]
    else []) ++
  pawnAdvance P.squares sq promotion SPECIAL_WPAWN_2SQUARES
    (whitePawnAdvanceSquares sq) 0

/-- `ChessRules::BlackPawnMoves`. -/
def blackPawnMoves (P : Position) (sq : Nat) : List Move :=
  let promotion := sq / 8 = 6      -- RANK(square) == '2'
  (blackPawnCaptureSquares sq).flatMap (fun dst =>
    if dst = P.d.enpassant_target then
      [⟨sq, dst, SPECIAL_BEN_PASSANT, 'P'⟩]
    else if IsWhite (P.squares.getD dst ' ') then
      let capture := P.squares.getD dst ' '
      if !promotion then [⟨sq, dst, NOT_SPECIAL, capture⟩]
      else
        [⟨sq, dst, SPECIAL_PROMOTION_QUEEN, capture⟩,
         ⟨sq, dst, SPECIAL_PROMOTION_KNIGHT, capture⟩,
         ⟨sq, dst, SPECIAL_PROMOTION_BISHOP, capture⟩,
         ⟨sq, dst, SPECIAL_PROMOTION_ROOK, capture⟩]
    else []) ++
  pawnAdvance P.squares sq promotion SPECIAL_BPAWN_2SQUARES
    (blackPawnAdvanceSquares sq) 0

/-- The white castling block of `ChessRules::KingMoves` (entered when the
generated piece stands on e1 = 60). -/
def whiteCastlingMoves (P : Position) : List Move :=
  (if P.squares.getD 62 ' ' = ' ' ∧ P.squares.getD 61 ' ' = ' ' ∧
      P.squares.getD 63 ' ' = 'R' ∧ P.d.wking = true ∧
      AttackedSquare P 60 false = false ∧
      AttackedSquare P 61 false = false ∧
      AttackedSquare P 62 false = false then
    [⟨60, 62, SPECIAL_WK_CASTLING, ' '⟩]
  else []) ++
  (if P.squares.getD 57 ' ' = ' ' ∧ P.squares.getD 58 ' ' = ' ' ∧
      P.squares.getD 59 ' ' = ' ' ∧ P.squares.getD 56 ' ' = 'R' ∧
      P.d.wqueen = true ∧
      AttackedSquare P 60 false = false ∧
      AttackedSquare P 59 false = false ∧
      AttackedSquare P 58 false = false then
    [⟨60, 58, SPECIAL_WQ_CASTLING, ' '⟩]
  else [])

/-- The black castling block of `ChessRules::KingMoves` (entered when the
generated piece stands on e8 = 4). -/
def blackCastlingMoves (P : Position) : List Move :=
  (if P.squares.getD 6 ' ' = ' ' ∧ P.squares.getD 5 ' ' = ' ' ∧
      P.squares.getD 7 ' ' = 'r' ∧ P.d.bking = true ∧
      AttackedSquare P 4 true = false ∧
      AttackedSquare P 5 true = false ∧
      AttackedSquare P 6 true = false then
    [⟨4, 6, SPECIAL_BK_CASTLING, ' '⟩]
  else []) ++
  (if P.squares.getD 1 ' ' = ' ' ∧ P.squares.getD 2 ' ' = ' ' ∧
      P.squares.getD 3 ' ' = ' ' ∧ P.squares.getD 0 ' ' = 'r' ∧
      P.d.bqueen = true ∧
      AttackedSquare P 4 true = false ∧
      AttackedSquare P 3 true = false ∧
      AttackedSquare P 2 true = false then
    [⟨4, 2, SPECIAL_BQ_CASTLING, ' '⟩]
  else [])

/-- `ChessRules::KingMoves`: single-step king moves plus the castling
blocks. -/
def kingMovesGen (P : Position) (sq : Nat) : List Move :=
  shortMoves P.white P.squares sq (kingSquares sq) SPECIAL_KING_MOVE ++
  (if sq = 60 then whiteCastlingMoves P else []) ++
  (if sq = 4 then blackCastlingMoves P else [])

/-- The per-square body of `ChessRules::GenMoveList`: skip squares holding a
piece of the wrong colour, then dispatch on the occupying piece. -/
def squareMoves (P : Position) (sq : Nat) : List Move :=
  let piece := P.squares.getD sq ' '
  if (P.white && IsBlack piece) || (!P.white && IsWhite piece) then []
  else if piece = 'P' then whitePawnMoves P sq
  else if piece = 'p' then blackPawnMoves P sq
  else if piece = 'N' ∨ piece = 'n' then
    shortMoves P.white P.squares sq (knightSquares sq) NOT_SPECIAL
  else if piece = 'B' ∨ piece = 'b' then
    longMoves P.white P.squares sq (bishopDirs.map (fun o => rayFrom sq o.1 o.2))
  else if piece = 'R' ∨ piece = 'r' then
    longMoves P.white P.squares sq (rookDirs.map (fun o => rayFrom sq o.1 o.2))
  else if piece = 'Q' ∨ piece = 'q' then
    longMoves P.white P.squares sq
      ((rookDirs ++ bishopDirs).map (fun o => rayFrom sq o.1 o.2))
  else if piece = 'K' ∨ piece = 'k' then kingMovesGen P sq
  else []

/-- `ChessRules::GenMoveList`: all pseudo-legal moves, iterating the squares
a8 (0) through h1 (63). -/
def GenMoveList (P : Position) : List Move :=
  (List.range 64).flatMap (squareMoves P)

/-! ## Legality (`ChessRules::Evaluate`, `is_legal`, `select_legal`) -/

/-- `ChessRules::Evaluate()` (the bool overload): the position is legal
unless the king of the side *not* to move is attacked. -/
def Evaluate (P : Position) : Bool :=
  !AttackedPiece P (if P.white then P.d.bking_square else P.d.wking_square)

/-- `ChessRules::is_legal(Move)`: push the move, evaluate, pop.  In the
functional embedding popping is implicit: the pushed position is consumed. -/
def is_legal_move (P : Position) (m : Move) : Bool :=
  Evaluate (PushMove P m)

/-- `ChessRules::select_legal`: keep the candidates that pass `is_legal`. -/
def select_legal (P : Position) (candidates : List Move) : List Move :=
  candidates.filter (is_legal_move P)

/-- `ChessRules::GenLegalMoveList()`. -/
def GenLegalMoveList (P : Position) : List Move :=
  select_legal P (GenMoveList P)

/-- The square of the king of the side that has just moved, read from a
position reached by `PushMove`: the side to move has been toggled, so this
is the `wking_square`/`bking_square` field of the side *not* to move —
exactly the square `ChessRules::Evaluate` tests. -/
def moverKingSquareAfter (Q : Position) : Nat :=
  if Q.white then Q.d.bking_square else Q.d.wking_square

/-- Claim C2: the legal move list contains exactly those pseudo-legal moves
after whose application the moving side's king is not attacked: a
pseudo-legal move is in `GenLegalMoveList` iff pushing it yields a position
in which the mover's king square fails the attack test. -/
theorem c2_legal_list_is_king_safe_filter (P : Position) (m : Move) :
    m ∈ GenLegalMoveList P ↔
      m ∈ GenMoveList P ∧
      AttackedPiece (PushMove P m) (moverKingSquareAfter (PushMove P m)) = false := by
  simp only [GenLegalMoveList, select_legal, List.mem_filter, is_legal_move,
    Evaluate, moverKingSquareAfter, Bool.not_eq_true', Bool.not_eq_true]

/-! ## The push/pop round trip (claim C1) -/

theorem getD_set_self (l : List Char) (i : Nat) (a d : Char) (h : i < l.length) :
    (l.set i a).getD i d = a := by
  simp [List.getD, List.getElem?_set, h]

theorem getD_set_ne (l : List Char) {i j : Nat} (a d : Char) (h : i ≠ j) :
    (l.set i a).getD j d = l.getD j d := by
  simp [List.getD, List.getElem?_set, h]

theorem set_getD_self (l : List Char) (i : Nat) (d : Char) (h : i < l.length) :
    l.set i (l.getD i d) = l := by
  apply List.ext_getElem?
  intro n
  rw [List.getElem?_set]
  split
  · next heq => subst heq; simp [List.getD, List.getElem?_eq_getElem h]
  · rfl

theorem getD_eq_some {l : List Char} {i : Nat} {v : Char}
    (h : i < l.length) (hg : l.getD i ' ' = v) : l[i]? = some v := by
  rw [List.getElem?_eq_getElem h]
  rw [List.getD_eq_getElem?_getD, List.getElem?_eq_getElem h] at hg
  simp_all

/-- The facts about the board that make a move reversible: exactly what
`PopMove` relies on to invert `PushMove`.  `GenMoveList` only emits moves
satisfying them (proved below). -/
def MoveOK (w : Bool) (sqs : List Char) (m : Move) : Prop :=
  match m.special with
  | NOT_SPECIAL | SPECIAL_KING_MOVE =>
      m.src < 64 ∧ m.dst < 64 ∧ sqs.getD m.dst ' ' = m.capture
  | SPECIAL_PROMOTION_QUEEN | SPECIAL_PROMOTION_ROOK
  | SPECIAL_PROMOTION_BISHOP | SPECIAL_PROMOTION_KNIGHT =>
      m.src < 64 ∧ m.dst < 64 ∧
      sqs.getD m.src ' ' = (if w then 'P' else 'p') ∧
      sqs.getD m.dst ' ' = m.capture
  | SPECIAL_WEN_PASSANT =>
      m.src < 64 ∧ m.dst + 8 < 64 ∧
      sqs.getD m.src ' ' = 'P' ∧ sqs.getD m.dst ' ' = ' ' ∧
      sqs.getD (m.dst + 8) ' ' = 'p'
  | SPECIAL_BEN_PASSANT =>
      m.src < 64 ∧ m.dst < 64 ∧
      sqs.getD m.src ' ' = 'p' ∧ sqs.getD m.dst ' ' = ' ' ∧
      sqs.getD (m.dst - 8) ' ' = 'P'
  | SPECIAL_WPAWN_2SQUARES =>
      m.src < 64 ∧ m.dst < 64 ∧
      sqs.getD m.src ' ' = 'P' ∧ sqs.getD m.dst ' ' = m.capture
  | SPECIAL_BPAWN_2SQUARES =>
      m.src < 64 ∧ m.dst < 64 ∧
      sqs.getD m.src ' ' = 'p' ∧ sqs.getD m.dst ' ' = m.capture
  | SPECIAL_WK_CASTLING =>
      sqs.getD 60 ' ' = 'K' ∧ sqs.getD 61 ' ' = ' ' ∧
      sqs.getD 62 ' ' = ' ' ∧ sqs.getD 63 ' ' = 'R'
  | SPECIAL_WQ_CASTLING =>
      sqs.getD 60 ' ' = 'K' ∧ sqs.getD 59 ' ' = ' ' ∧
      sqs.getD 58 ' ' = ' ' ∧ sqs.getD 56 ' ' = 'R'
  | SPECIAL_BK_CASTLING =>
      sqs.getD 4 ' ' = 'k' ∧ sqs.getD 5 ' ' = ' ' ∧
      sqs.getD 6 ' ' = ' ' ∧ sqs.getD 7 ' ' = 'r'
  | SPECIAL_BQ_CASTLING =>
      sqs.getD 4 ' ' = 'k' ∧ sqs.getD 3 ' ' = ' ' ∧
      sqs.getD 2 ' ' = ' ' ∧ sqs.getD 0 ' ' = 'r'

theorem popBoard_pushBoard (w : Bool) (sqs : List Char) (m : Move)
    (hlen : sqs.length = 64) (hok : MoveOK w sqs m) :
    popBoard w (pushBoard w sqs m) m = sqs := by
  cases m with
  | mk src dst special capture =>
    cases special <;>
      simp only [MoveOK] at hok <;>
      simp only [popBoard, pushBoard]
    case NOT_SPECIAL | SPECIAL_KING_MOVE =>
      obtain ⟨h1, h2, h3⟩ := hok
      by_cases hsd : src = dst
      · subst hsd
        rw [List.set_set, List.set_set, List.set_set, ← h3,
          set_getD_self _ _ _ (by omega)]
      · have hd := getD_eq_some (l := sqs) (by omega) h3
        have hx : ((sqs.set dst (sqs.getD src ' ')).set src ' ').getD dst ' ' =
            sqs.getD src ' ' := by
          rw [getD_set_ne _ _ _ hsd, getD_set_self _ _ _ _ (by omega)]
        rw [hx]
        have hsv := getD_eq_some (l := sqs) (i := src) (by omega) rfl
        clear hx h3
        apply List.ext_getElem?
        intro n
        simp only [List.getElem?_set, List.length_set, hlen]
        split_ifs <;> simp_all
    case SPECIAL_PROMOTION_QUEEN | SPECIAL_PROMOTION_ROOK
       | SPECIAL_PROMOTION_BISHOP | SPECIAL_PROMOTION_KNIGHT =>
      obtain ⟨h1, h2, h3, h4⟩ := hok
      have hs := getD_eq_some (l := sqs) (by omega) h3
      have hd := getD_eq_some (l := sqs) (by omega) h4
      apply List.ext_getElem?
      intro n
      simp only [List.getElem?_set, List.length_set, hlen]
      split_ifs <;> cases w <;> simp_all
    case SPECIAL_WEN_PASSANT =>
      obtain ⟨h1, h2, h3, h4, h5⟩ := hok
      have hs := getD_eq_some (l := sqs) (by omega) h3
      have hd := getD_eq_some (l := sqs) (by omega) h4
      have he := getD_eq_some (l := sqs) (by omega) h5
      apply List.ext_getElem?
      intro n
      simp only [List.getElem?_set, List.length_set, hlen]
      split_ifs <;> simp_all <;> omega
    case SPECIAL_BEN_PASSANT =>
      obtain ⟨h1, h2, h3, h4, h5⟩ := hok
      have hs := getD_eq_some (l := sqs) (by omega) h3
      have hd := getD_eq_some (l := sqs) (by omega) h4
      have he := getD_eq_some (l := sqs) (i := dst - 8) (by omega) h5
      apply List.ext_getElem?
      intro n
      simp only [List.getElem?_set, List.length_set, hlen]
      split_ifs <;> simp_all <;> omega
    case SPECIAL_WPAWN_2SQUARES =>
      obtain ⟨h1, h2, h3, h4⟩ := hok
      have hs := getD_eq_some (l := sqs) (by omega) h3
      have hd := getD_eq_some (l := sqs) (by omega) h4
      have hx : ((sqs.set src ' ').set dst 'P').getD dst ' ' = 'P' :=
        getD_set_self _ _ _ _ (by rw [List.length_set, hlen]; omega)
      rw [hx]
      apply List.ext_getElem?
      intro n
      simp only [List.getElem?_set, List.length_set, hlen]
      split_ifs <;> simp_all
    case SPECIAL_BPAWN_2SQUARES =>
      obtain ⟨h1, h2, h3, h4⟩ := hok
      have hs := getD_eq_some (l := sqs) (by omega) h3
      have hd := getD_eq_some (l := sqs) (by omega) h4
      have hx : ((sqs.set src ' ').set dst 'p').getD dst ' ' = 'p' :=
        getD_set_self _ _ _ _ (by rw [List.length_set, hlen]; omega)
      rw [hx]
      apply List.ext_getElem?
      intro n
      simp only [List.getElem?_set, List.length_set, hlen]
      split_ifs <;> simp_all
    case SPECIAL_WK_CASTLING | SPECIAL_WQ_CASTLING
       | SPECIAL_BK_CASTLING | SPECIAL_BQ_CASTLING =>
      obtain ⟨h1, h2, h3, h4⟩ := hok
      have k1 := getD_eq_some (l := sqs) (by omega) h1
      have k2 := getD_eq_some (l := sqs) (by omega) h2
      have k3 := getD_eq_some (l := sqs) (by omega) h3
      have k4 := getD_eq_some (l := sqs) (by omega) h4
      apply List.ext_getElem?
      intro n
      simp only [List.getElem?_set, List.length_set, hlen]
      split_ifs <;> simp_all <;> omega

/-- `PushMove` then `PopMove` of a board-consistent move is the identity on
the whole position. -/
theorem PopMove_PushMove (P : Position) (m : Move)
    (hlen : P.squares.length = 64) (hok : MoveOK P.white P.squares m) :
    PopMove (PushMove P m) m = P := by
  have hb := popBoard_pushBoard P.white P.squares m hlen hok
  cases P with
  | mk sqs w d stack hist clk fmc =>
    simp only [PushMove, PopMove, Bool.not_not] at *
    simp [hb]

/-- Consistency of the en-passant target with the board: either no target, or
a genuine double-advance target square of the side that just moved (empty,
with the advanced pawn behind it).  Every position reached by playing moves
from a start position satisfies this; `PopMove` can only invert an
en-passant capture under it. -/
def EpOK (P : Position) : Prop :=
  (P.white = true →
    P.d.enpassant_target = 64 ∨
    (16 ≤ P.d.enpassant_target ∧ P.d.enpassant_target ≤ 23 ∧
     P.squares.getD P.d.enpassant_target ' ' = ' ' ∧
     P.squares.getD (P.d.enpassant_target + 8) ' ' = 'p')) ∧
  (P.white = false →
    P.d.enpassant_target = 64 ∨
    (40 ≤ P.d.enpassant_target ∧ P.d.enpassant_target ≤ 47 ∧
     P.squares.getD P.d.enpassant_target ' ' = ' ' ∧
     P.squares.getD (P.d.enpassant_target - 8) ' ' = 'P'))

instance (P : Position) : Decidable (EpOK P) := by
  unfold EpOK
  infer_instance

theorem raySquares_lt (f r df dr : Int) (n : Nat) :
    ∀ s ∈ raySquares f r df dr n, s < 64 := by
  induction n generalizing f r with
  | zero => simp [raySquares]
  | succ k ih =>
    intro s hs
    simp only [raySquares] at hs
    split at hs
    · next h =>
      rcases List.mem_cons.mp hs with rfl | hs'
      · omega
      · exact ih _ _ s hs'
    · simp at hs

theorem rayFrom_lt (sq : Nat) (df dr : Int) : ∀ s ∈ rayFrom sq df dr, s < 64 :=
  raySquares_lt _ _ _ _ _

theorem offsetSquares_lt (sq : Nat) (offs : List (Int × Int)) :
    ∀ s ∈ offsetSquares sq offs, s < 64 := by
  intro s hs
  simp only [offsetSquares, List.mem_filterMap] at hs
  obtain ⟨o, _, ho⟩ := hs
  split at ho
  · next h => injection ho with h'; omega
  · exact absurd ho (by simp)

theorem longRay_sound (w : Bool) (sqs : List Char) (src : Nat)
    (ray : List Nat) (m : Move) (hm : m ∈ longRay w sqs src ray) :
    m.src = src ∧ m.special = NOT_SPECIAL ∧
    sqs.getD m.dst ' ' = m.capture ∧ m.dst ∈ ray := by
  induction ray with
  | nil => simp [longRay] at hm
  | cons dst rest ih =>
    simp only [longRay] at hm
    split_ifs at hm with hemp hen
    · rcases List.mem_cons.mp hm with rfl | hm'
      · refine ⟨rfl, rfl, ?_, by simp⟩
        simpa [IsEmptySquare] using hemp
      · obtain ⟨a, b, c, d⟩ := ih hm'
        exact ⟨a, b, c, by simp [d]⟩
    · rcases List.mem_cons.mp hm with rfl | hm'
      · exact ⟨rfl, rfl, rfl, by simp⟩
      · simp at hm'
    · simp at hm

theorem longMoves_sound (w : Bool) (sqs : List Char) (src : Nat)
    (rays : List (List Nat)) (m : Move) (hm : m ∈ longMoves w sqs src rays) :
    m.src = src ∧ m.special = NOT_SPECIAL ∧
    sqs.getD m.dst ' ' = m.capture ∧ ∃ ray ∈ rays, m.dst ∈ ray := by
  simp only [longMoves, List.mem_flatMap] at hm
  obtain ⟨ray, hray, hm'⟩ := hm
  obtain ⟨a, b, c, d⟩ := longRay_sound w sqs src ray m hm'
  exact ⟨a, b, c, ray, hray, d⟩

theorem shortMoves_sound (w : Bool) (sqs : List Char) (src : Nat)
    (dsts : List Nat) (special : SPECIAL) (m : Move)
    (hm : m ∈ shortMoves w sqs src dsts special) :
    m.src = src ∧ m.special = special ∧
    sqs.getD m.dst ' ' = m.capture ∧ m.dst ∈ dsts := by
  simp only [shortMoves, List.mem_filterMap] at hm
  obtain ⟨dst, hdst, hm'⟩ := hm
  split_ifs at hm' with hemp hen
  · simp only [Option.some.injEq] at hm'
    subst hm'
    exact ⟨rfl, rfl, by simpa [IsEmptySquare] using hemp, hdst⟩
  · simp only [Option.some.injEq] at hm'
    subst hm'
    exact ⟨rfl, rfl, rfl, hdst⟩

theorem pawnAdvance_sound (sqs : List Char) (src : Nat) (promotion : Bool)
    (twoTag : SPECIAL) (ray : List Nat) (i : Nat) (m : Move)
    (hm : m ∈ pawnAdvance sqs src promotion twoTag ray i) :
    m.src = src ∧ m.capture = ' ' ∧ sqs.getD m.dst ' ' = ' ' ∧ m.dst ∈ ray ∧
    (if promotion then
      m.special = SPECIAL_PROMOTION_QUEEN ∨ m.special = SPECIAL_PROMOTION_KNIGHT ∨
      m.special = SPECIAL_PROMOTION_BISHOP ∨ m.special = SPECIAL_PROMOTION_ROOK
     else m.special = NOT_SPECIAL ∨ m.special = twoTag) := by
  induction ray generalizing i with
  | nil => simp [pawnAdvance] at hm
  | cons dst rest ih =>
    simp only [pawnAdvance] at hm
    split_ifs at hm with hocc hp hi
    · simp at hm
    · have hpromo : promotion = false := by simpa using hp
      have hempty : sqs.getD dst ' ' = ' ' := by simpa [IsEmptySquare] using hocc
      rcases List.mem_append.mp hm with hm' | hm'
      · rcases List.mem_singleton.mp hm' with rfl
        exact ⟨rfl, rfl, hempty, by simp, by simp [hpromo]⟩
      · obtain ⟨a, b, c, d, e⟩ := ih (i + 1) hm'
        exact ⟨a, b, c, by simp [d], e⟩
    · have hpromo : promotion = false := by simpa using hp
      have hempty : sqs.getD dst ' ' = ' ' := by simpa [IsEmptySquare] using hocc
      rcases List.mem_append.mp hm with hm' | hm'
      · rcases List.mem_singleton.mp hm' with rfl
        exact ⟨rfl, rfl, hempty, by simp, by simp [hpromo]⟩
      · obtain ⟨a, b, c, d, e⟩ := ih (i + 1) hm'
        exact ⟨a, b, c, by simp [d], e⟩
    · have hpromo : promotion = true := by simpa using hp
      have hempty : sqs.getD dst ' ' = ' ' := by simpa [IsEmptySquare] using hocc
      rcases List.mem_append.mp hm with hm' | hm'
      · simp only [List.mem_cons, List.not_mem_nil, or_false] at hm'
        rcases hm' with rfl | rfl | rfl | rfl
        · exact ⟨rfl, rfl, hempty, by simp, by simp [hpromo]⟩
        · exact ⟨rfl, rfl, hempty, by simp, by simp [hpromo]⟩
        · exact ⟨rfl, rfl, hempty, by simp, by simp [hpromo]⟩
        · exact ⟨rfl, rfl, hempty, by simp, by simp [hpromo]⟩
      · obtain ⟨a, b, c, d, e⟩ := ih (i + 1) hm'
        exact ⟨a, b, c, by simp [d], e⟩

theorem whitePawnCaptureSquares_mem (sq dst : Nat)
    (h : dst ∈ whitePawnCaptureSquares sq) :
    8 ≤ sq ∧ ((dst = sq - 9 ∧ sq % 8 ≠ 0) ∨ (dst = sq - 7 ∧ sq % 8 ≠ 7)) := by
  simp only [whitePawnCaptureSquares] at h
  split_ifs at h <;> simp_all [List.mem_append]

theorem whitePawnAdvanceSquares_mem (sq dst : Nat)
    (h : dst ∈ whitePawnAdvanceSquares sq) :
    8 ≤ sq ∧ (dst = sq - 8 ∨ (dst = sq - 16 ∧ 48 ≤ sq ∧ sq ≤ 55)) := by
  simp only [whitePawnAdvanceSquares] at h
  split_ifs at h <;> simp_all [List.mem_append]

theorem blackPawnCaptureSquares_mem (sq dst : Nat)
    (h : dst ∈ blackPawnCaptureSquares sq) :
    sq < 56 ∧ ((dst = sq + 7 ∧ sq % 8 ≠ 0) ∨ (dst = sq + 9 ∧ sq % 8 ≠ 7)) := by
  simp only [blackPawnCaptureSquares] at h
  split_ifs at h <;> simp_all [List.mem_append]

theorem blackPawnAdvanceSquares_mem (sq dst : Nat)
    (h : dst ∈ blackPawnAdvanceSquares sq) :
    sq < 56 ∧ (dst = sq + 8 ∨ (dst = sq + 16 ∧ 8 ≤ sq ∧ sq ≤ 15)) := by
  simp only [blackPawnAdvanceSquares] at h
  split_ifs at h <;> simp_all [List.mem_append]

theorem whitePawnMoves_moveOK (P : Position) (sq : Nat) (hsq : sq < 64)
    (hw : P.white = true) (hp : P.squares.getD sq ' ' = 'P')
    (hep : EpOK P) (m : Move) (hm : m ∈ whitePawnMoves P sq) :
    MoveOK P.white P.squares m := by
  simp only [whitePawnMoves] at hm
  rcases List.mem_append.mp hm with hm' | hm'
  · simp only [List.mem_flatMap] at hm'
    obtain ⟨dst, hdst, hm2⟩ := hm'
    obtain ⟨hs8, hdsteq⟩ := whitePawnCaptureSquares_mem sq dst hdst
    have hdlt : dst < 64 := by omega
    split_ifs at hm2 with h1 h2 h3
    · rcases List.mem_singleton.mp hm2 with rfl
      simp only [MoveOK]
      rcases hep.1 hw with h64 | ⟨ha, hb, hc, hd⟩
      · omega
      · exact ⟨by omega, by omega, hp, by rw [h1]; exact hc, by rw [h1]; exact hd⟩
    · rcases List.mem_singleton.mp hm2 with rfl
      exact show sq < 64 ∧ dst < 64 ∧
          P.squares.getD dst ' ' = P.squares.getD dst ' ' from
        ⟨by omega, by omega, rfl⟩
    · simp only [List.mem_cons, List.not_mem_nil, or_false] at hm2
      rcases hm2 with rfl | rfl | rfl | rfl <;>
        exact show sq < 64 ∧ dst < 64 ∧
            P.squares.getD sq ' ' = (if P.white then 'P' else 'p') ∧
            P.squares.getD dst ' ' = P.squares.getD dst ' ' from
          ⟨by omega, by omega, by rw [hw]; exact hp, rfl⟩
    · simp at hm2
  · obtain ⟨a, b, c, d, e⟩ := pawnAdvance_sound _ _ _ _ _ _ _ hm'
    obtain ⟨h8, hd'⟩ := whitePawnAdvanceSquares_mem sq m.dst d
    have hdlt : m.dst < 64 := by omega
    obtain ⟨msrc, mdst, msp, mcap⟩ := m
    simp only at a b c hdlt e
    subst a
    split_ifs at e
    · rcases e with h | h | h | h <;>
        · subst h
          simp only [MoveOK]
          exact ⟨by omega, by omega, by rw [hw]; exact hp, by rw [c]; exact b.symm⟩
    · rcases e with h | h <;> subst h <;> simp only [MoveOK]
      · exact ⟨by omega, by omega, by rw [c]; exact b.symm⟩
      · exact ⟨by omega, by omega, hp, by rw [c]; exact b.symm⟩

theorem blackPawnMoves_moveOK (P : Position) (sq : Nat) (hsq : sq < 64)
    (hw : P.white = false) (hp : P.squares.getD sq ' ' = 'p')
    (hep : EpOK P) (m : Move) (hm : m ∈ blackPawnMoves P sq) :
    MoveOK P.white P.squares m := by
  simp only [blackPawnMoves] at hm
  rcases List.mem_append.mp hm with hm' | hm'
  · simp only [List.mem_flatMap] at hm'
    obtain ⟨dst, hdst, hm2⟩ := hm'
    obtain ⟨hs8, hdsteq⟩ := blackPawnCaptureSquares_mem sq dst hdst
    have hdlt : dst < 64 := by omega
    split_ifs at hm2 with h1 h2 h3
    · rcases List.mem_singleton.mp hm2 with rfl
      simp only [MoveOK]
      rcases hep.2 hw with h64 | ⟨ha, hb, hc, hd⟩
      · omega
      · exact ⟨by omega, by omega, hp, by rw [h1]; exact hc, by rw [h1]; exact hd⟩
    · rcases List.mem_singleton.mp hm2 with rfl
      exact show sq < 64 ∧ dst < 64 ∧
          P.squares.getD dst ' ' = P.squares.getD dst ' ' from
        ⟨by omega, by omega, rfl⟩
    · simp only [List.mem_cons, List.not_mem_nil, or_false] at hm2
      rcases hm2 with rfl | rfl | rfl | rfl <;>
        exact show sq < 64 ∧ dst < 64 ∧
            P.squares.getD sq ' ' = (if P.white then 'P' else 'p') ∧
            P.squares.getD dst ' ' = P.squares.getD dst ' ' from
          ⟨by omega, by omega, by rw [hw]; exact hp, rfl⟩
    · simp at hm2
  · obtain ⟨a, b, c, d, e⟩ := pawnAdvance_sound _ _ _ _ _ _ _ hm'
    obtain ⟨h8, hd'⟩ := blackPawnAdvanceSquares_mem sq m.dst d
    have hdlt : m.dst < 64 := by omega
    obtain ⟨msrc, mdst, msp, mcap⟩ := m
    simp only at a b c hdlt e
    subst a
    split_ifs at e
    · rcases e with h | h | h | h <;>
        · subst h
          simp only [MoveOK]
          exact ⟨by omega, by omega, by rw [hw]; exact hp, by rw [c]; exact b.symm⟩
    · rcases e with h | h <;> subst h <;> simp only [MoveOK]
      · exact ⟨by omega, by omega, by rw [c]; exact b.symm⟩
      · exact ⟨by omega, by omega, hp, by rw [c]; exact b.symm⟩

/-- A black king on e1 (60) attacks f1 (61): rules out white kingside
castling being generated for the wrong-coloured king. -/
theorem blackKingE1_attacks_f1 (P : Position)
    (h : P.squares.getD 60 ' ' = 'k') : AttackedSquare P 61 false = true := by
  have hray : rayFrom 61 (-1) 0 = [60, 59, 58, 57, 56] := by decide
  have hslide : slideAttack P.squares false 61 ((-1 : Int), (0 : Int)) true = true := by
    rw [List.getD_eq_getElem?_getD] at h
    unfold slideAttack
    simp only []
    rw [hray]
    simp [firstOcc, h]
  simp only [AttackedSquare, Bool.or_eq_true]
  exact Or.inl (Or.inl (List.any_eq_true.mpr ⟨((-1 : Int), (0 : Int)), by decide, hslide⟩))

/-- A black king on e1 (60) attacks d1 (59): rules out white queenside
castling being generated for the wrong-coloured king. -/
theorem blackKingE1_attacks_d1 (P : Position)
    (h : P.squares.getD 60 ' ' = 'k') : AttackedSquare P 59 false = true := by
  have hray : rayFrom 59 (1) 0 = [60, 61, 62, 63] := by decide
  have hslide : slideAttack P.squares false 59 ((1 : Int), (0 : Int)) true = true := by
    rw [List.getD_eq_getElem?_getD] at h
    unfold slideAttack
    simp only []
    rw [hray]
    simp [firstOcc, h]
  simp only [AttackedSquare, Bool.or_eq_true]
  exact Or.inl (Or.inl (List.any_eq_true.mpr ⟨((1 : Int), (0 : Int)), by decide, hslide⟩))

/-- A white king on e8 (4) attacks f8 (5). -/
theorem whiteKingE8_attacks_f8 (P : Position)
    (h : P.squares.getD 4 ' ' = 'K') : AttackedSquare P 5 true = true := by
  have hray : rayFrom 5 (-1) 0 = [4, 3, 2, 1, 0] := by decide
  have hslide : slideAttack P.squares true 5 ((-1 : Int), (0 : Int)) true = true := by
    rw [List.getD_eq_getElem?_getD] at h
    unfold slideAttack
    simp only []
    rw [hray]
    simp [firstOcc, h]
  simp only [AttackedSquare, Bool.or_eq_true]
  exact Or.inl (Or.inl (List.any_eq_true.mpr ⟨((-1 : Int), (0 : Int)), by decide, hslide⟩))

/-- A white king on e8 (4) attacks d8 (3). -/
theorem whiteKingE8_attacks_d8 (P : Position)
    (h : P.squares.getD 4 ' ' = 'K') : AttackedSquare P 3 true = true := by
  have hray : rayFrom 3 (1) 0 = [4, 5, 6, 7] := by decide
  have hslide : slideAttack P.squares true 3 ((1 : Int), (0 : Int)) true = true := by
    rw [List.getD_eq_getElem?_getD] at h
    unfold slideAttack
    simp only []
    rw [hray]
    simp [firstOcc, h]
  simp only [AttackedSquare, Bool.or_eq_true]
  exact Or.inl (Or.inl (List.any_eq_true.mpr ⟨((1 : Int), (0 : Int)), by decide, hslide⟩))

theorem kingMovesGen_moveOK (P : Position) (sq : Nat) (hsq : sq < 64)
    (hk : P.squares.getD sq ' ' = 'K' ∨ P.squares.getD sq ' ' = 'k')
    (m : Move) (hm : m ∈ kingMovesGen P sq) :
    MoveOK P.white P.squares m := by
  simp only [kingMovesGen, List.mem_append] at hm
  rcases hm with (hm | hm) | hm
  · obtain ⟨a, b, c, d⟩ := shortMoves_sound _ _ _ _ _ _ hm
    have hdlt := offsetSquares_lt sq _ _ d
    obtain ⟨msrc, mdst, msp, mcap⟩ := m
    simp only at a b c hdlt
    subst a b
    exact ⟨hsq, hdlt, c⟩
  · by_cases h60 : sq = 60
    · subst h60
      rw [if_pos rfl] at hm
      simp only [whiteCastlingMoves, List.mem_append] at hm
      split_ifs at hm with hks hqs hqs
      · rcases hm with hm | hm
        · obtain ⟨h62, h61, h63, hwk, hA60, hA61, hA62⟩ := hks
          rcases List.mem_singleton.mp hm with rfl
          have hK : P.squares.getD 60 ' ' = 'K' := by
            rcases hk with h | h
            · exact h
            · exact absurd (blackKingE1_attacks_f1 P h) (by simp [hA61])
          exact show _ ∧ _ ∧ _ ∧ _ from ⟨hK, h61, h62, h63⟩
        · obtain ⟨h57, h58, h59, h56, hwq, hB60, hB59, hB58⟩ := hqs
          rcases List.mem_singleton.mp hm with rfl
          have hK : P.squares.getD 60 ' ' = 'K' := by
            rcases hk with h | h
            · exact h
            · exact absurd (blackKingE1_attacks_d1 P h) (by simp [hB59])
          exact show _ ∧ _ ∧ _ ∧ _ from ⟨hK, h59, h58, h56⟩
      · rcases hm with hm | hm
        · obtain ⟨h62, h61, h63, hwk, hA60, hA61, hA62⟩ := hks
          rcases List.mem_singleton.mp hm with rfl
          have hK : P.squares.getD 60 ' ' = 'K' := by
            rcases hk with h | h
            · exact h
            · exact absurd (blackKingE1_attacks_f1 P h) (by simp [hA61])
          exact show _ ∧ _ ∧ _ ∧ _ from ⟨hK, h61, h62, h63⟩
        · simp at hm
      · rcases hm with hm | hm
        · simp at hm
        · obtain ⟨h57, h58, h59, h56, hwq, hB60, hB59, hB58⟩ := hqs
          rcases List.mem_singleton.mp hm with rfl
          have hK : P.squares.getD 60 ' ' = 'K' := by
            rcases hk with h | h
            · exact h
            · exact absurd (blackKingE1_attacks_d1 P h) (by simp [hB59])
          exact show _ ∧ _ ∧ _ ∧ _ from ⟨hK, h59, h58, h56⟩
      · simp at hm
    · rw [if_neg h60] at hm
      simp at hm
  · by_cases h4 : sq = 4
    · subst h4
      rw [if_pos rfl] at hm
      simp only [blackCastlingMoves, List.mem_append] at hm
      split_ifs at hm with hks hqs hqs
      · rcases hm with hm | hm
        · obtain ⟨h6, h5, h7, hbk, hA4, hA5, hA6⟩ := hks
          rcases List.mem_singleton.mp hm with rfl
          have hKb : P.squares.getD 4 ' ' = 'k' := by
            rcases hk with h | h
            · exact absurd (whiteKingE8_attacks_f8 P h) (by simp [hA5])
            · exact h
          exact show _ ∧ _ ∧ _ ∧ _ from ⟨hKb, h5, h6, h7⟩
        · obtain ⟨h1, h2, h3, h0, hbq, hB4, hB3, hB2⟩ := hqs
          rcases List.mem_singleton.mp hm with rfl
          have hKb : P.squares.getD 4 ' ' = 'k' := by
            rcases hk with h | h
            · exact absurd (whiteKingE8_attacks_d8 P h) (by simp [hB3])
            · exact h
          exact show _ ∧ _ ∧ _ ∧ _ from ⟨hKb, h3, h2, h0⟩
      · rcases hm with hm | hm
        · obtain ⟨h6, h5, h7, hbk, hA4, hA5, hA6⟩ := hks
          rcases List.mem_singleton.mp hm with rfl
          have hKb : P.squares.getD 4 ' ' = 'k' := by
            rcases hk with h | h
            · exact absurd (whiteKingE8_attacks_f8 P h) (by simp [hA5])
            · exact h
          exact show _ ∧ _ ∧ _ ∧ _ from ⟨hKb, h5, h6, h7⟩
        · simp at hm
      · rcases hm with hm | hm
        · simp at hm
        · obtain ⟨h1, h2, h3, h0, hbq, hB4, hB3, hB2⟩ := hqs
          rcases List.mem_singleton.mp hm with rfl
          have hKb : P.squares.getD 4 ' ' = 'k' := by
            rcases hk with h | h
            · exact absurd (whiteKingE8_attacks_d8 P h) (by simp [hB3])
            · exact h
          exact show _ ∧ _ ∧ _ ∧ _ from ⟨hKb, h3, h2, h0⟩
      · simp at hm
    · rw [if_neg h4] at hm
      simp at hm

theorem squareMoves_moveOK (P : Position) (hep : EpOK P) (sq : Nat)
    (hsq : sq < 64) (m : Move) (hm : m ∈ squareMoves P sq) :
    MoveOK P.white P.squares m := by
  simp only [squareMoves] at hm
  split_ifs at hm with hskip hP hp hN hB hR hQ hK
  · simp at hm
  · have hw : P.white = true := by
      by_contra h
      have hf : P.white = false := by simpa using h
      exact hskip (by rw [hf, hP]; decide)
    exact whitePawnMoves_moveOK P sq hsq hw hP hep m hm
  · have hw : P.white = false := by
      by_contra h
      have ht : P.white = true := by simpa using h
      exact hskip (by rw [ht, hp]; decide)
    exact blackPawnMoves_moveOK P sq hsq hw hp hep m hm
  · obtain ⟨a, b, c, d⟩ := shortMoves_sound _ _ _ _ _ _ hm
    have hdlt := offsetSquares_lt sq _ _ d
    obtain ⟨msrc, mdst, msp, mcap⟩ := m
    simp only at a b c hdlt
    subst a b
    exact ⟨hsq, hdlt, c⟩
  · obtain ⟨a, b, c, hray⟩ := longMoves_sound _ _ _ _ _ hm
    obtain ⟨ray, hray', hdst⟩ := hray
    simp only [List.mem_map] at hray'
    obtain ⟨o, ho, rfl⟩ := hray'
    have hdlt := rayFrom_lt sq o.1 o.2 _ hdst
    obtain ⟨msrc, mdst, msp, mcap⟩ := m
    simp only at a b c hdlt
    subst a b
    exact ⟨hsq, hdlt, c⟩
  · obtain ⟨a, b, c, hray⟩ := longMoves_sound _ _ _ _ _ hm
    obtain ⟨ray, hray', hdst⟩ := hray
    simp only [List.mem_map] at hray'
    obtain ⟨o, ho, rfl⟩ := hray'
    have hdlt := rayFrom_lt sq o.1 o.2 _ hdst
    obtain ⟨msrc, mdst, msp, mcap⟩ := m
    simp only at a b c hdlt
    subst a b
    exact ⟨hsq, hdlt, c⟩
  · obtain ⟨a, b, c, hray⟩ := longMoves_sound _ _ _ _ _ hm
    obtain ⟨ray, hray', hdst⟩ := hray
    simp only [List.mem_map] at hray'
    obtain ⟨o, ho, rfl⟩ := hray'
    have hdlt := rayFrom_lt sq o.1 o.2 _ hdst
    obtain ⟨msrc, mdst, msp, mcap⟩ := m
    simp only at a b c hdlt
    subst a b
    exact ⟨hsq, hdlt, c⟩
  · exact kingMovesGen_moveOK P sq hsq hK m hm
  · simp at hm

theorem GenMoveList_moveOK (P : Position) (hep : EpOK P) (m : Move)
    (hm : m ∈ GenMoveList P) : MoveOK P.white P.squares m := by
  simp only [GenMoveList, List.mem_flatMap, List.mem_range] at hm
  obtain ⟨sq, hsq, hm'⟩ := hm
  exact squareMoves_moveOK P hep sq hsq m hm'

/-- Claim C1: for every position (with a well-formed 64-square board and an
en-passant target consistent with the board) and every legal move of that
position, `PushMove` followed by `PopMove` of the same move restores the
position to bit-for-bit equality: board squares, side to move, DETAIL record,
detail stack, history and counters are all exactly the pre-push values. -/
theorem c1_pushmove_popmove_roundtrip (P : Position) (m : Move)
    (hlen : P.squares.length = 64) (hep : EpOK P)
    (hm : m ∈ GenLegalMoveList P) :
    PopMove (PushMove P m) m = P := by
  have hm' : m ∈ GenMoveList P :=
    (List.mem_filter.mp (by simpa [GenLegalMoveList, select_legal] using hm)).1
  exact PopMove_PushMove P m hlen (GenMoveList_moveOK P hep m hm')

/-- A minimal concrete position: white king on e1 (60), black king on e8 (4),
white to move. -/
def kingsOnlyPosition : Position :=
  { squares :=
      "    k                                                       K   ".toList,
    white := true,
    d := { wking_square := 60, bking_square := 4,
           wking := false, wqueen := false, bking := false, bqueen := false,
           enpassant_target := 64 },
    detail_stack := [], history := [], half_move_clock := 0,
    full_move_count := 1 }

theorem c1_pushmove_popmove_roundtrip_witness :
    kingsOnlyPosition.squares.length = 64 ∧ EpOK kingsOnlyPosition ∧
    (⟨60, 52, SPECIAL_KING_MOVE, ' '⟩ : Move) ∈ GenLegalMoveList kingsOnlyPosition ∧
    PopMove (PushMove kingsOnlyPosition ⟨60, 52, SPECIAL_KING_MOVE, ' '⟩)
      ⟨60, 52, SPECIAL_KING_MOVE, ' '⟩ = kingsOnlyPosition :=
  ⟨by decide, by decide, by decide,
   c1_pushmove_popmove_roundtrip kingsOnlyPosition ⟨60, 52, SPECIAL_KING_MOVE, ' '⟩
     (by decide) (by decide) (by decide)⟩

/-- White pawn generation never emits a castling tag. -/
theorem whitePawnMoves_not_castling (P : Position) (sq : Nat) (m : Move)
    (hm : m ∈ whitePawnMoves P sq) :
    m.special ≠ SPECIAL_WK_CASTLING ∧ m.special ≠ SPECIAL_WQ_CASTLING ∧
    m.special ≠ SPECIAL_BK_CASTLING ∧ m.special ≠ SPECIAL_BQ_CASTLING := by
  simp only [whitePawnMoves] at hm
  rcases List.mem_append.mp hm with hm' | hm'
  · simp only [List.mem_flatMap] at hm'
    obtain ⟨dst, hdst, hm2⟩ := hm'
    split_ifs at hm2 <;>
      simp only [List.mem_cons, List.mem_singleton, List.not_mem_nil, or_false] at hm2 <;>
      (rcases hm2 with rfl | rfl | rfl | rfl <;> exact ⟨by simp, by simp, by simp, by simp⟩)
  · obtain ⟨a, b, c, d, e⟩ := pawnAdvance_sound _ _ _ _ _ _ _ hm'
    split_ifs at e
    · rcases e with h | h | h | h <;> rw [h] <;> exact ⟨by simp, by simp, by simp, by simp⟩
    · rcases e with h | h <;> rw [h] <;> exact ⟨by simp, by simp, by simp, by simp⟩

/-- Black pawn generation never emits a castling tag. -/
theorem blackPawnMoves_not_castling (P : Position) (sq : Nat) (m : Move)
    (hm : m ∈ blackPawnMoves P sq) :
    m.special ≠ SPECIAL_WK_CASTLING ∧ m.special ≠ SPECIAL_WQ_CASTLING ∧
    m.special ≠ SPECIAL_BK_CASTLING ∧ m.special ≠ SPECIAL_BQ_CASTLING := by
  simp only [blackPawnMoves] at hm
  rcases List.mem_append.mp hm with hm' | hm'
  · simp only [List.mem_flatMap] at hm'
    obtain ⟨dst, hdst, hm2⟩ := hm'
    split_ifs at hm2 <;>
      simp only [List.mem_cons, List.mem_singleton, List.not_mem_nil, or_false] at hm2 <;>
      (rcases hm2 with rfl | rfl | rfl | rfl <;> exact ⟨by simp, by simp, by simp, by simp⟩)
  · obtain ⟨a, b, c, d, e⟩ := pawnAdvance_sound _ _ _ _ _ _ _ hm'
    split_ifs at e
    · rcases e with h | h | h | h <;> rw [h] <;> exact ⟨by simp, by simp, by simp, by simp⟩
    · rcases e with h | h <;> rw [h] <;> exact ⟨by simp, by simp, by simp, by simp⟩

/-- Claim C4: a castling move appears in the pseudo-legal move list only under
the full set of generation-time conditions: the squares between king and rook
are empty, the corresponding castling-rights flag is set, king and rook stand
on their home squares, the side castling is the side to move, and the king's
current square, transit square and destination are all unattacked by the
opponent — castling through or out of check is never generated. -/
theorem c4_castling_generated_only_under_conditions (P : Position) (m : Move)
    (hm : m ∈ GenMoveList P) :
    (m.special = SPECIAL_WK_CASTLING →
      P.white = true ∧ P.squares.getD 60 ' ' = 'K' ∧
      P.squares.getD 63 ' ' = 'R' ∧
      P.squares.getD 61 ' ' = ' ' ∧ P.squares.getD 62 ' ' = ' ' ∧
      P.d.wking = true ∧
      AttackedSquare P 60 false = false ∧ AttackedSquare P 61 false = false ∧
      AttackedSquare P 62 false = false) ∧
    (m.special = SPECIAL_WQ_CASTLING →
      P.white = true ∧ P.squares.getD 60 ' ' = 'K' ∧
      P.squares.getD 56 ' ' = 'R' ∧
      P.squares.getD 57 ' ' = ' ' ∧ P.squares.getD 58 ' ' = ' ' ∧
      P.squares.getD 59 ' ' = ' ' ∧ P.d.wqueen = true ∧
      AttackedSquare P 60 false = false ∧ AttackedSquare P 59 false = false ∧
      AttackedSquare P 58 false = false) ∧
    (m.special = SPECIAL_BK_CASTLING →
      P.white = false ∧ P.squares.getD 4 ' ' = 'k' ∧
      P.squares.getD 7 ' ' = 'r' ∧
      P.squares.getD 5 ' ' = ' ' ∧ P.squares.getD 6 ' ' = ' ' ∧
      P.d.bking = true ∧
      AttackedSquare P 4 true = false ∧ AttackedSquare P 5 true = false ∧
      AttackedSquare P 6 true = false) ∧
    (m.special = SPECIAL_BQ_CASTLING →
      P.white = false ∧ P.squares.getD 4 ' ' = 'k' ∧
      P.squares.getD 0 ' ' = 'r' ∧
      P.squares.getD 1 ' ' = ' ' ∧ P.squares.getD 2 ' ' = ' ' ∧
      P.squares.getD 3 ' ' = ' ' ∧ P.d.bqueen = true ∧
      AttackedSquare P 4 true = false ∧ AttackedSquare P 3 true = false ∧
      AttackedSquare P 2 true = false) := by
  simp only [GenMoveList, List.mem_flatMap, List.mem_range] at hm
  obtain ⟨sq, hsq, hm⟩ := hm
  simp only [squareMoves] at hm
  split_ifs at hm with hskip hP hp hN hB hR hQ hK
  · simp at hm
  · obtain ⟨n1, n2, n3, n4⟩ := whitePawnMoves_not_castling P sq m hm
    exact ⟨fun h => absurd h n1, fun h => absurd h n2,
           fun h => absurd h n3, fun h => absurd h n4⟩
  · obtain ⟨n1, n2, n3, n4⟩ := blackPawnMoves_not_castling P sq m hm
    exact ⟨fun h => absurd h n1, fun h => absurd h n2,
           fun h => absurd h n3, fun h => absurd h n4⟩
  · have htag := (shortMoves_sound _ _ _ _ _ _ hm).2.1
    exact ⟨fun h => by simp [htag] at h, fun h => by simp [htag] at h,
           fun h => by simp [htag] at h, fun h => by simp [htag] at h⟩
  · have htag := (longMoves_sound _ _ _ _ _ hm).2.1
    exact ⟨fun h => by simp [htag] at h, fun h => by simp [htag] at h,
           fun h => by simp [htag] at h, fun h => by simp [htag] at h⟩
  · have htag := (longMoves_sound _ _ _ _ _ hm).2.1
    exact ⟨fun h => by simp [htag] at h, fun h => by simp [htag] at h,
           fun h => by simp [htag] at h, fun h => by simp [htag] at h⟩
  · have htag := (longMoves_sound _ _ _ _ _ hm).2.1
    exact ⟨fun h => by simp [htag] at h, fun h => by simp [htag] at h,
           fun h => by simp [htag] at h, fun h => by simp [htag] at h⟩
  · -- king branch
    simp only [kingMovesGen, List.mem_append] at hm
    rcases hm with (hm | hm) | hm
    · have htag := (shortMoves_sound _ _ _ _ _ _ hm).2.1
      exact ⟨fun h => by simp [htag] at h, fun h => by simp [htag] at h,
             fun h => by simp [htag] at h, fun h => by simp [htag] at h⟩
    · by_cases h60 : sq = 60
      · subst h60
        rw [if_pos rfl] at hm
        simp only [whiteCastlingMoves, List.mem_append] at hm
        split_ifs at hm with hks hqs hqs
        all_goals try simp at hm
        · rcases hm with rfl | rfl
          · obtain ⟨h62, h61, h63, hwk, hA60, hA61, hA62⟩ := hks
            have hKw : P.squares.getD 60 ' ' = 'K' := by
              rcases hK with h | h
              · exact h
              · exact absurd (blackKingE1_attacks_f1 P h) (by simp [hA61])
            have hw : P.white = true := by
              by_contra h
              have hf : P.white = false := by simpa using h
              exact hskip (by rw [hf, hKw]; decide)
            exact ⟨fun _ => ⟨hw, hKw, h63, h61, h62, hwk, hA60, hA61, hA62⟩,
                   fun h => by simp at h, fun h => by simp at h, fun h => by simp at h⟩
          · obtain ⟨h57, h58, h59, h56, hwq, hB60, hB59, hB58⟩ := hqs
            have hKw : P.squares.getD 60 ' ' = 'K' := by
              rcases hK with h | h
              · exact h
              · exact absurd (blackKingE1_attacks_d1 P h) (by simp [hB59])
            have hw : P.white = true := by
              by_contra h
              have hf : P.white = false := by simpa using h
              exact hskip (by rw [hf, hKw]; decide)
            exact ⟨fun h => by simp at h,
                   fun _ => ⟨hw, hKw, h56, h57, h58, h59, hwq, hB60, hB59, hB58⟩,
                   fun h => by simp at h, fun h => by simp at h⟩
        · rcases hm with rfl
          obtain ⟨h62, h61, h63, hwk, hA60, hA61, hA62⟩ := hks
          have hKw : P.squares.getD 60 ' ' = 'K' := by
            rcases hK with h | h
            · exact h
            · exact absurd (blackKingE1_attacks_f1 P h) (by simp [hA61])
          have hw : P.white = true := by
            by_contra h
            have hf : P.white = false := by simpa using h
            exact hskip (by rw [hf, hKw]; decide)
          exact ⟨fun _ => ⟨hw, hKw, h63, h61, h62, hwk, hA60, hA61, hA62⟩,
                 fun h => by simp at h, fun h => by simp at h, fun h => by simp at h⟩
        · rcases hm with rfl
          obtain ⟨h57, h58, h59, h56, hwq, hB60, hB59, hB58⟩ := hqs
          have hKw : P.squares.getD 60 ' ' = 'K' := by
            rcases hK with h | h
            · exact h
            · exact absurd (blackKingE1_attacks_d1 P h) (by simp [hB59])
          have hw : P.white = true := by
            by_contra h
            have hf : P.white = false := by simpa using h
            exact hskip (by rw [hf, hKw]; decide)
          exact ⟨fun h => by simp at h,
                 fun _ => ⟨hw, hKw, h56, h57, h58, h59, hwq, hB60, hB59, hB58⟩,
                 fun h => by simp at h, fun h => by simp at h⟩
      · rw [if_neg h60] at hm
        simp at hm
    · by_cases h4 : sq = 4
      · subst h4
        rw [if_pos rfl] at hm
        simp only [blackCastlingMoves, List.mem_append] at hm
        split_ifs at hm with hks hqs hqs
        all_goals try simp at hm
        · rcases hm with rfl | rfl
          · obtain ⟨h6, h5, h7, hbk, hA4, hA5, hA6⟩ := hks
            have hKb : P.squares.getD 4 ' ' = 'k' := by
              rcases hK with h | h
              · exact absurd (whiteKingE8_attacks_f8 P h) (by simp [hA5])
              · exact h
            have hw : P.white = false := by
              by_contra h
              have ht : P.white = true := by simpa using h
              exact hskip (by rw [ht, hKb]; decide)
            exact ⟨fun h => by simp at h, fun h => by simp at h,
                   fun _ => ⟨hw, hKb, h7, h5, h6, hbk, hA4, hA5, hA6⟩,
                   fun h => by simp at h⟩
          · obtain ⟨h1, h2, h3, h0, hbq, hB4, hB3, hB2⟩ := hqs
            have hKb : P.squares.getD 4 ' ' = 'k' := by
              rcases hK with h | h
              · exact absurd (whiteKingE8_attacks_d8 P h) (by simp [hB3])
              · exact h
            have hw : P.white = false := by
              by_contra h
              have ht : P.white = true := by simpa using h
              exact hskip (by rw [ht, hKb]; decide)
            exact ⟨fun h => by simp at h, fun h => by simp at h, fun h => by simp at h,
                   fun _ => ⟨hw, hKb, h0, h1, h2, h3, hbq, hB4, hB3, hB2⟩⟩
        · rcases hm with rfl
          obtain ⟨h6, h5, h7, hbk, hA4, hA5, hA6⟩ := hks
          have hKb : P.squares.getD 4 ' ' = 'k' := by
            rcases hK with h | h
            · exact absurd (whiteKingE8_attacks_f8 P h) (by simp [hA5])
            · exact h
          have hw : P.white = false := by
            by_contra h
            have ht : P.white = true := by simpa using h
            exact hskip (by rw [ht, hKb]; decide)
          exact ⟨fun h => by simp at h, fun h => by simp at h,
                 fun _ => ⟨hw, hKb, h7, h5, h6, hbk, hA4, hA5, hA6⟩,
                 fun h => by simp at h⟩
        · rcases hm with rfl
          obtain ⟨h1, h2, h3, h0, hbq, hB4, hB3, hB2⟩ := hqs
          have hKb : P.squares.getD 4 ' ' = 'k' := by
            rcases hK with h | h
            · exact absurd (whiteKingE8_attacks_d8 P h) (by simp [hB3])
            · exact h
          have hw : P.white = false := by
            by_contra h
            have ht : P.white = true := by simpa using h
            exact hskip (by rw [ht, hKb]; decide)
          exact ⟨fun h => by simp at h, fun h => by simp at h, fun h => by simp at h,
                 fun _ => ⟨hw, hKb, h0, h1, h2, h3, hbq, hB4, hB3, hB2⟩⟩
      · rw [if_neg h4] at hm
        simp at hm
  · simp at hm

/-- A castling-ready concrete position: white Ke1, Ra1, Rh1; black Ke8. -/
def castleReadyPosition : Position :=
  { squares :=
      "    k                                                   R   K  R".toList,
    white := true,
    d := { wking_square := 60, bking_square := 4,
           wking := true, wqueen := true, bking := false, bqueen := false,
           enpassant_target := 64 },
    detail_stack := [], history := [], half_move_clock := 0,
    full_move_count := 1 }

theorem c4_castling_generated_only_under_conditions_witness :
    (⟨60, 62, SPECIAL_WK_CASTLING, ' '⟩ : Move) ∈ GenMoveList castleReadyPosition ∧
    (castleReadyPosition.white = true ∧
     castleReadyPosition.squares.getD 60 ' ' = 'K' ∧
     castleReadyPosition.squares.getD 63 ' ' = 'R' ∧
     castleReadyPosition.squares.getD 61 ' ' = ' ' ∧
     castleReadyPosition.squares.getD 62 ' ' = ' ' ∧
     castleReadyPosition.d.wking = true ∧
     AttackedSquare castleReadyPosition 60 false = false ∧
     AttackedSquare castleReadyPosition 61 false = false ∧
     AttackedSquare castleReadyPosition 62 false = false) :=
  ⟨by decide,
   (c4_castling_generated_only_under_conditions castleReadyPosition
     ⟨60, 62, SPECIAL_WK_CASTLING, ' '⟩ (by decide)).1 rfl⟩

/-! ## Terminal evaluation and the extended legal move list (claim C10) -/

/-- `thc::TERMINAL`. -/
inductive TERMINAL where
  | NOT_TERMINAL
  | TERMINAL_WCHECKMATE
  | TERMINAL_BCHECKMATE
  | TERMINAL_WSTALEMATE
  | TERMINAL_BSTALEMATE
deriving DecidableEq, Repr

open TERMINAL

/-- `ChessRules::Evaluate(vector<Move>*, TERMINAL&)`: returns (okay, terminal
score).  Not okay means the side that just moved left its king attacked;
otherwise, if no pseudo-legal move of the side to move survives the
king-safety test, the position is checkmate or stalemate. -/
def EvaluateTerminal (P : Position) : Bool × TERMINAL :=
  let enemy_king := if P.white then P.d.bking_square else P.d.wking_square
  if AttackedPiece P enemy_king then (false, NOT_TERMINAL)
  else
    let any := (GenMoveList P).countP (fun mv =>
      let Q := PushMove P mv
      !AttackedPiece Q (if Q.white then Q.d.bking_square else Q.d.wking_square))
    if any = 0 then
      if AttackedPiece P (if P.white then P.d.wking_square else P.d.bking_square) then
        (true, if P.white then TERMINAL_WCHECKMATE else TERMINAL_BCHECKMATE)
      else
        (true, if P.white then TERMINAL_WSTALEMATE else TERMINAL_BSTALEMATE)
    else (true, NOT_TERMINAL)

/-- One row per surviving move of the extended
`ChessRules::GenLegalMoveList(moves, check, mate, stalemate)` loop: the move,
its check flag, its mate flag and its stalemate flag, in the loop's own
order.  As in the source, the check flag is forced to false when the move
mates. -/
def genLegalExtRows (P : Position) : List (Move × Bool × Bool × Bool) :=
  (GenMoveList P).filterMap (fun mv =>
    let Q := PushMove P mv
    let okay := (EvaluateTerminal Q).1
    let terminal := (EvaluateTerminal Q).2
    let bcheck := AttackedPiece Q (if Q.white then Q.d.wking_square else Q.d.bking_square)
    if okay then
      some (mv,
        (if terminal = TERMINAL_WCHECKMATE ∨ terminal = TERMINAL_BCHECKMATE
         then false else bcheck),
        decide (terminal = TERMINAL_WCHECKMATE ∨ terminal = TERMINAL_BCHECKMATE),
        decide (terminal = TERMINAL_WSTALEMATE ∨ terminal = TERMINAL_BSTALEMATE))
    else none)

/-- The four parallel sequences produced by the extended
`GenLegalMoveList` overload: (moves, check, mate, stalemate). -/
def GenLegalMoveListExt (P : Position) :
    List Move × List Bool × List Bool × List Bool :=
  ((genLegalExtRows P).map (·.1), (genLegalExtRows P).map (·.2.1),
   (genLegalExtRows P).map (·.2.2.1), (genLegalExtRows P).map (·.2.2.2))

theorem genLegalExtRows_mate_check (P : Position)
    (row : Move × Bool × Bool × Bool) (hrow : row ∈ genLegalExtRows P) :
    row.2.2.1 = true → row.2.1 = false := by
  simp only [genLegalExtRows, List.mem_filterMap] at hrow
  obtain ⟨mv, hmv, heq⟩ := hrow
  by_cases hok : (EvaluateTerminal (PushMove P mv)).1 = true
  · rw [if_pos hok] at heq
    have h := Option.some.inj heq
    subst h
    intro hmate
    simp only at hmate ⊢
    rw [if_pos (by simpa using hmate)]
  · rw [if_neg hok] at heq
    exact absurd heq (by simp)

/-- Claim C10: the extended legal-move generation returns four sequences of
equal length, and a move flagged as delivering mate is never simultaneously
flagged as a checking move. -/
theorem c10_extended_list_lengths_and_mate_not_check (P : Position) :
    ((GenLegalMoveListExt P).1.length = (GenLegalMoveListExt P).2.1.length ∧
     (GenLegalMoveListExt P).1.length = (GenLegalMoveListExt P).2.2.1.length ∧
     (GenLegalMoveListExt P).1.length = (GenLegalMoveListExt P).2.2.2.length) ∧
    ∀ i : Nat, (GenLegalMoveListExt P).2.2.1.getD i false = true →
      (GenLegalMoveListExt P).2.1.getD i false = false := by
  refine ⟨⟨by simp [GenLegalMoveListExt], by simp [GenLegalMoveListExt],
           by simp [GenLegalMoveListExt]⟩, ?_⟩
  intro i hmate
  simp only [GenLegalMoveListExt, List.getD_eq_getElem?_getD,
    List.getElem?_map] at hmate ⊢
  cases hrow : (genLegalExtRows P)[i]? with
  | none => simp [hrow] at hmate
  | some row =>
    rw [hrow] at hmate
    simp only [Option.map_some', Option.getD_some] at hmate ⊢
    exact genLegalExtRows_mate_check P row (List.getElem?_mem hrow) hmate

/-- A mate-in-one position: black king a8 (0), white king b6 (17), white rook
h1 (63), white to move; Rh1-h8 is checkmate. -/
def mateInOnePosition : Position :=
  { squares :=
      ("k" ++ String.mk (List.replicate 16 ' ') ++ "K" ++
       String.mk (List.replicate 45 ' ') ++ "R").toList,
    white := true,
    d := { wking_square := 17, bking_square := 0,
           wking := false, wqueen := false, bking := false, bqueen := false,
           enpassant_target := 64 },
    detail_stack := [], history := [], half_move_clock := 0,
    full_move_count := 1 }

theorem c10_extended_list_lengths_and_mate_not_check_witness :
    (GenLegalMoveListExt mateInOnePosition).2.2.1.getD 12 false = true ∧
    (GenLegalMoveListExt mateInOnePosition).2.1.getD 12 false = false :=
  ⟨by decide,
   (c10_extended_list_lengths_and_mate_not_check mateInOnePosition).2 12 (by decide)⟩

/-! ## Draw adjudication (claims C8, C9, C3) -/

/-- `thc::DRAWTYPE`. -/
inductive DRAWTYPE where
  | NOT_DRAW
  | DRAWTYPE_50MOVE
  | DRAWTYPE_INSUFFICIENT
  | DRAWTYPE_INSUFFICIENT_AUTO
  | DRAWTYPE_REPITITION
deriving DecidableEq, Repr

open DRAWTYPE

/-- `isupper` on the piece characters. -/
def isUpperChar (c : Char) : Bool := decide ('A' ≤ c ∧ c ≤ 'Z')

/-- The switch cases of `IsInsufficientDraw` that set `bishop_or_knight`. -/
def isMinorChar (c : Char) : Bool :=
  c == 'B' || c == 'b' || c == 'N' || c == 'n'

/-- The switch cases of `IsInsufficientDraw` that count material (every
non-king, non-empty piece). -/
def isMaterialChar (c : Char) : Bool :=
  isMinorChar c || c == 'Q' || c == 'q' || c == 'R' || c == 'r' ||
  c == 'P' || c == 'p'

/-- One iteration of the `IsInsufficientDraw` board loop on accumulator
(piece_count, bishop_or_knight, lone_wking, lone_bking). -/
def insuffStep (piece : Char) (acc : Nat × Bool × Bool × Bool) :
    Nat × Bool × Bool × Bool :=
  (if isMaterialChar piece then acc.1 + 1 else acc.1,
   if isMinorChar piece then true else acc.2.1,
   if isMaterialChar piece && isUpperChar piece then false else acc.2.2.1,
   if isMaterialChar piece && !isUpperChar piece then false else acc.2.2.2)

/-- The `IsInsufficientDraw` board loop, including its early `break` once
both lone-king flags are false. -/
def insuffScan (sqs : List Char) : List Nat → Nat × Bool × Bool × Bool →
    Nat × Bool × Bool × Bool
  | [], acc => acc
  | s :: rest, acc =>
    let acc' := insuffStep (sqs.getD s ' ') acc
    if acc'.2.2.1 = false ∧ acc'.2.2.2 = false then acc'
    else insuffScan sqs rest acc'

/-- The same loop without the early break (used to relate the scan to plain
counts over the board). -/
def insuffFull (sqs : List Char) : List Nat → Nat × Bool × Bool × Bool →
    Nat × Bool × Bool × Bool
  | [], acc => acc
  | s :: rest, acc => insuffFull sqs rest (insuffStep (sqs.getD s ' ') acc)

/-- The decision block at the end of `IsInsufficientDraw`. -/
def insuffDecision (r : Nat × Bool × Bool × Bool) (white_asks : Bool) :
    Bool × DRAWTYPE :=
  if r.1 = 0 ∨ (r.1 = 1 ∧ r.2.1 = true) then (true, DRAWTYPE_INSUFFICIENT_AUTO)
  else if white_asks = true ∧ r.2.2.2 = true then (true, DRAWTYPE_INSUFFICIENT)
  else if white_asks = false ∧ r.2.2.1 = true then (true, DRAWTYPE_INSUFFICIENT)
  else (false, NOT_DRAW)

/-- `ChessRules::IsInsufficientDraw` (the returned DRAWTYPE is `NOT_DRAW`
when the function returns false and leaves its out-parameter untouched). -/
def IsInsufficientDraw (P : Position) (white_asks : Bool) : Bool × DRAWTYPE :=
  insuffDecision (insuffScan P.squares (List.range 64) (0, false, true, true))
    white_asks

theorem insuffFull_spec (sqs : List Char) (L : List Nat) :
    ∀ acc, insuffFull sqs L acc =
      (acc.1 + L.countP (fun s => isMaterialChar (sqs.getD s ' ')),
       acc.2.1 || L.any (fun s => isMinorChar (sqs.getD s ' ')),
       acc.2.2.1 && !(L.any (fun s =>
         isMaterialChar (sqs.getD s ' ') && isUpperChar (sqs.getD s ' '))),
       acc.2.2.2 && !(L.any (fun s =>
         isMaterialChar (sqs.getD s ' ') && !isUpperChar (sqs.getD s ' ')))) := by
  induction L with
  | nil => intro acc; simp [insuffFull]
  | cons s rest ih =>
    intro acc
    rw [insuffFull, ih]
    simp only [insuffStep, List.countP_cons, List.any_cons, Prod.mk.injEq]
    refine ⟨?_, ?_, ?_, ?_⟩
    · cases hM : isMaterialChar (sqs.getD s ' ') <;> simp <;> omega
    · cases hN : isMinorChar (sqs.getD s ' ') <;> simp
    · cases hM : isMaterialChar (sqs.getD s ' ') <;>
        cases hU : isUpperChar (sqs.getD s ' ') <;> simp
    · cases hM : isMaterialChar (sqs.getD s ' ') <;>
        cases hU : isUpperChar (sqs.getD s ' ') <;> simp

theorem insuffScan_decision (sqs : List Char) (L : List Nat) :
    ∀ (acc : Nat × Bool × Bool × Bool),
      (acc.2.2.1 = false → 1 ≤ acc.1) →
      (acc.2.2.2 = false → 1 ≤ acc.1) →
      (acc.2.2.1 = false → acc.2.2.2 = false → 2 ≤ acc.1) →
      ∀ asks, insuffDecision (insuffScan sqs L acc) asks =
        insuffDecision (insuffFull sqs L acc) asks := by
  induction L with
  | nil => intro acc _ _ _ asks; rfl
  | cons s rest ih =>
    intro acc i1 i2 i3 asks
    rw [insuffScan, insuffFull]
    set pc := sqs.getD s ' ' with hpc
    have hstep1 : (insuffStep pc acc).2.2.1 = false → 1 ≤ (insuffStep pc acc).1 := by
      simp only [insuffStep]
      cases hM : isMaterialChar pc <;> cases hU : isUpperChar pc <;> simp <;>
        intros <;>
        first
        | (have h9 := i3 (by assumption) (by assumption); omega)
        | (have h9 := i1 (by assumption); omega)
        | (have h9 := i2 (by assumption); omega)
        | omega
    have hstep2 : (insuffStep pc acc).2.2.2 = false → 1 ≤ (insuffStep pc acc).1 := by
      simp only [insuffStep]
      cases hM : isMaterialChar pc <;> cases hU : isUpperChar pc <;> simp <;>
        intros <;>
        first
        | (have h9 := i3 (by assumption) (by assumption); omega)
        | (have h9 := i1 (by assumption); omega)
        | (have h9 := i2 (by assumption); omega)
        | omega
    have hstep3 : (insuffStep pc acc).2.2.1 = false →
        (insuffStep pc acc).2.2.2 = false → 2 ≤ (insuffStep pc acc).1 := by
      simp only [insuffStep]
      cases hM : isMaterialChar pc <;> cases hU : isUpperChar pc <;> simp <;>
        intros <;>
        first
        | (have h9 := i3 (by assumption) (by assumption); omega)
        | (have h9 := i1 (by assumption); omega)
        | (have h9 := i2 (by assumption); omega)
        | omega
    split_ifs with hbreak
    · have hcnt := hstep3 hbreak.1 hbreak.2
      have hfull := insuffFull_spec sqs rest (insuffStep pc acc)
      have hfullcnt : 2 ≤ (insuffFull sqs rest (insuffStep pc acc)).1 := by
        rw [hfull]; simp only []; omega
      have hfull1 : (insuffFull sqs rest (insuffStep pc acc)).2.2.1 = false := by
        rw [hfull]; simp only []; rw [hbreak.1]; simp
      have hfull2 : (insuffFull sqs rest (insuffStep pc acc)).2.2.2 = false := by
        rw [hfull]; simp only []; rw [hbreak.2]; simp
      have c1 : ¬((insuffStep pc acc).1 = 0 ∨
          ((insuffStep pc acc).1 = 1 ∧ (insuffStep pc acc).2.1 = true)) := by
        rintro (h | ⟨h, _⟩) <;> omega
      have c2 : ¬((insuffFull sqs rest (insuffStep pc acc)).1 = 0 ∨
          ((insuffFull sqs rest (insuffStep pc acc)).1 = 1 ∧
           (insuffFull sqs rest (insuffStep pc acc)).2.1 = true)) := by
        rintro (h | ⟨h, _⟩) <;> omega
      unfold insuffDecision
      rw [hbreak.1, hbreak.2, hfull1, hfull2, if_neg c1, if_neg c2]
    · exact ih (insuffStep pc acc) hstep1 hstep2 hstep3 asks

theorem map_getD_range (l : List Char) :
    (List.range l.length).map (fun i => l.getD i ' ') = l := by
  apply List.ext_getElem
  · simp
  · intro i hi1 hi2
    simp [List.getD_eq_getElem?_getD, List.getElem?_eq_getElem hi2]

theorem countP_range_getD (l : List Char) (hlen : l.length = 64) (p : Char → Bool) :
    (List.range 64).countP (fun s => p (l.getD s ' ')) = l.countP p := by
  conv_rhs => rw [← map_getD_range l]
  rw [hlen, List.countP_map]
  rfl

theorem any_range_getD (l : List Char) (hlen : l.length = 64) (p : Char → Bool) :
    ((List.range 64).any fun s => p (l.getD s ' ')) = l.any p := by
  rw [Bool.eq_iff_iff, List.any_eq_true, List.any_eq_true]
  constructor
  · rintro ⟨s, hs, hp⟩
    rw [List.mem_range] at hs
    have hsl : s < l.length := by omega
    refine ⟨l[s], List.getElem_mem hsl, ?_⟩
    rwa [List.getD_eq_getElem?_getD, List.getElem?_eq_getElem hsl] at hp
  · rintro ⟨c, hc, hp⟩
    obtain ⟨i, hi, rfl⟩ := List.mem_iff_getElem.mp hc
    refine ⟨i, List.mem_range.mpr (by omega), ?_⟩
    rwa [List.getD_eq_getElem?_getD, List.getElem?_eq_getElem hi]

theorem any_range_minor (l : List Char) (hlen : l.length = 64) :
    ((List.range 64).any fun s => isMinorChar (l.getD s ' ')) = l.any isMinorChar :=
  any_range_getD l hlen isMinorChar

theorem any_range_matUpper (l : List Char) (hlen : l.length = 64) :
    ((List.range 64).any fun s =>
      isMaterialChar (l.getD s ' ') && isUpperChar (l.getD s ' ')) =
    l.any (fun c => isMaterialChar c && isUpperChar c) :=
  any_range_getD l hlen (fun c => isMaterialChar c && isUpperChar c)

theorem any_range_matNotUpper (l : List Char) (hlen : l.length = 64) :
    ((List.range 64).any fun s =>
      isMaterialChar (l.getD s ' ') && !isUpperChar (l.getD s ' ')) =
    l.any (fun c => isMaterialChar c && !isUpperChar c) :=
  any_range_getD l hlen (fun c => isMaterialChar c && !isUpperChar c)

theorem isMinorChar_isMaterialChar (c : Char) (h : isMinorChar c = true) :
    isMaterialChar c = true := by
  simp [isMaterialChar, h]

/-- Claim C8: the insufficient-material adjudication declares an automatic
draw exactly when the total non-king material is zero, or is exactly one
piece which is a minor (knight or bishop); otherwise the asking side is
granted a claimed draw exactly when the opponent has no material at all
beside the king.  In particular king+bishop vs king is an automatic draw and
king+rook vs king is never a draw for the side facing the rook. -/
theorem c8_insufficient_material_characterization (P : Position) (asks : Bool)
    (hlen : P.squares.length = 64) :
    (IsInsufficientDraw P asks = (true, DRAWTYPE_INSUFFICIENT_AUTO) ↔
      (P.squares.countP isMaterialChar = 0 ∨
       (P.squares.countP isMaterialChar = 1 ∧
        P.squares.countP isMinorChar = 1))) ∧
    ((IsInsufficientDraw P asks).1 = true ↔
      ((P.squares.countP isMaterialChar = 0 ∨
        (P.squares.countP isMaterialChar = 1 ∧
         P.squares.countP isMinorChar = 1)) ∨
       (asks = true ∧
        P.squares.countP (fun c => isMaterialChar c && !isUpperChar c) = 0) ∨
       (asks = false ∧
        P.squares.countP (fun c => isMaterialChar c && isUpperChar c) = 0))) := by
  have hD : IsInsufficientDraw P asks =
      insuffDecision
        (P.squares.countP isMaterialChar,
         P.squares.any isMinorChar,
         !(P.squares.any (fun c => isMaterialChar c && isUpperChar c)),
         !(P.squares.any (fun c => isMaterialChar c && !isUpperChar c))) asks := by
    unfold IsInsufficientDraw
    rw [insuffScan_decision P.squares (List.range 64) (0, false, true, true)
      (by simp) (by simp) (by simp) asks]
    rw [insuffFull_spec]
    simp only [Nat.zero_add, Bool.false_or, Bool.true_and]
    rw [countP_range_getD P.squares hlen, any_range_minor P.squares hlen,
      any_range_matUpper P.squares hlen, any_range_matNotUpper P.squares hlen]
  have hminor : P.squares.countP isMaterialChar = 1 →
      ((P.squares.any isMinorChar) = true ↔ P.squares.countP isMinorChar = 1) := by
    intro h1
    have hle : P.squares.countP isMinorChar ≤ P.squares.countP isMaterialChar :=
      List.countP_mono_left (fun c _ => isMinorChar_isMaterialChar c)
    constructor
    · intro hany
      obtain ⟨c, hc, hpc⟩ := List.any_eq_true.mp hany
      have hpos : 0 < P.squares.countP isMinorChar := by
        rw [List.countP_pos]
        exact ⟨c, hc, hpc⟩
      omega
    · intro hcnt
      have hpos : 0 < P.squares.countP isMinorChar := by omega
      obtain ⟨c, hc, hpc⟩ := List.countP_pos.mp hpos
      exact List.any_eq_true.mpr ⟨c, hc, hpc⟩
  have hflagW : (!(P.squares.any (fun c => isMaterialChar c && isUpperChar c))) = true ↔
      P.squares.countP (fun c => isMaterialChar c && isUpperChar c) = 0 := by
    rw [Bool.not_eq_true', ← Bool.not_eq_true, ← ne_eq]
    rw [Ne, List.any_eq_true]
    rw [List.countP_eq_zero]
    constructor
    · intro h c hc
      by_contra hp
      exact h ⟨c, hc, by simpa using hp⟩
    · rintro h ⟨c, hc, hp⟩
      exact absurd hp (by simp [h c hc])
  have hflagB : (!(P.squares.any (fun c => isMaterialChar c && !isUpperChar c))) = true ↔
      P.squares.countP (fun c => isMaterialChar c && !isUpperChar c) = 0 := by
    rw [Bool.not_eq_true', ← Bool.not_eq_true, ← ne_eq]
    rw [Ne, List.any_eq_true]
    rw [List.countP_eq_zero]
    constructor
    · intro h c hc
      by_contra hp
      exact h ⟨c, hc, by simpa using hp⟩
    · rintro h ⟨c, hc, hp⟩
      exact absurd hp (by simp [h c hc])
  rw [hD]
  unfold insuffDecision
  simp only []
  by_cases hauto : P.squares.countP isMaterialChar = 0 ∨
      (P.squares.countP isMaterialChar = 1 ∧ (P.squares.any isMinorChar) = true)
  · rw [if_pos hauto]
    constructor
    · constructor
      · intro _
        rcases hauto with h | ⟨h1, h2⟩
        · exact Or.inl h
        · exact Or.inr ⟨h1, (hminor h1).mp h2⟩
      · intro _
        rfl
    · constructor
      · intro _
        rcases hauto with h | ⟨h1, h2⟩
        · exact Or.inl (Or.inl h)
        · exact Or.inl (Or.inr ⟨h1, (hminor h1).mp h2⟩)
      · intro _
        rfl
  · rw [if_neg hauto]
    have hnotauto : ¬(P.squares.countP isMaterialChar = 0 ∨
        (P.squares.countP isMaterialChar = 1 ∧
         P.squares.countP isMinorChar = 1)) := by
      intro h
      apply hauto
      rcases h with h | ⟨h1, h2⟩
      · exact Or.inl h
      · exact Or.inr ⟨h1, (hminor h1).mpr h2⟩
    by_cases hBclaim : asks = true ∧
        (!(P.squares.any fun c => isMaterialChar c && !isUpperChar c)) = true
    · rw [if_pos hBclaim]
      constructor
      · constructor
        · intro h
          simp at h
        · intro h
          exact absurd h hnotauto
      · constructor
        · intro _
          exact Or.inr (Or.inl ⟨hBclaim.1, hflagB.mp hBclaim.2⟩)
        · intro _
          rfl
    · rw [if_neg hBclaim]
      by_cases hWclaim : asks = false ∧
          (!(P.squares.any fun c => isMaterialChar c && isUpperChar c)) = true
      · rw [if_pos hWclaim]
        constructor
        · constructor
          · intro h
            simp at h
          · intro h
            exact absurd h hnotauto
        · constructor
          · intro _
            exact Or.inr (Or.inr ⟨hWclaim.1, hflagW.mp hWclaim.2⟩)
          · intro _
            rfl
      · rw [if_neg hWclaim]
        constructor
        · constructor
          · intro h
            simp at h
          · intro h
            exact absurd h hnotauto
        · constructor
          · intro h
            simp at h
          · rintro (h | ⟨ha, hcnt⟩ | ⟨ha, hcnt⟩)
            · exact absurd h hnotauto
            · exact absurd ⟨ha, hflagB.mpr hcnt⟩ hBclaim
            · exact absurd ⟨ha, hflagW.mpr hcnt⟩ hWclaim

/-- King and bishop versus king: white Ke1, Bc1, black Ke8. -/
def kbkPosition : Position :=
  { squares :=
      ("    k" ++ String.mk (List.replicate 53 ' ') ++ "B " ++ "K   ").toList,
    white := true,
    d := { wking_square := 60, bking_square := 4,
           wking := false, wqueen := false, bking := false, bqueen := false,
           enpassant_target := 64 },
    detail_stack := [], history := [], half_move_clock := 0,
    full_move_count := 1 }

/-- King and rook versus king: white Ke1, Rh1, black Ke8. -/
def krkPosition : Position :=
  { squares :=
      ("    k" ++ String.mk (List.replicate 55 ' ') ++ "K  R").toList,
    white := true,
    d := { wking_square := 60, bking_square := 4,
           wking := false, wqueen := false, bking := false, bqueen := false,
           enpassant_target := 64 },
    detail_stack := [], history := [], half_move_clock := 0,
    full_move_count := 1 }

theorem c8_insufficient_material_characterization_witness :
    IsInsufficientDraw kbkPosition true = (true, DRAWTYPE_INSUFFICIENT_AUTO) ∧
    (IsInsufficientDraw krkPosition false).1 = false := by
  constructor
  · exact (c8_insufficient_material_characterization kbkPosition true
      (by decide)).1.mpr (by decide)
  · have h := (c8_insufficient_material_characterization krkPosition false
      (by decide)).2
    cases hb : (IsInsufficientDraw krkPosition false).1
    · rfl
    · exact absurd (h.mp hb) (by decide)

/-- `ChessRules::PlayMove`: record the move in the history, update the
full-move counter after a black move, reset the half-move clock on a pawn
move or capture and increment it otherwise, then `PushMove`. -/
def PlayMove (P : Position) (m : Move) : Position :=
  PushMove
    { P with
      history := m :: P.history,
      full_move_count :=
        if !P.white then P.full_move_count + 1 else P.full_move_count,
      half_move_clock :=
        if P.squares.getD m.src ' ' = 'P' ∨ P.squares.getD m.src ' ' = 'p' then 0
        else if !IsEmptySquare m.capture then 0
        else P.half_move_clock + 1 }
    m

/-- The early-abandon test at the bottom of the `GetRepetitionCount` loop:
evaluated on the board *after* popping the move. -/
def isPawnOrCaptureAfterPop (Q : Position) (m : Move) : Bool :=
  Q.squares.getD m.src ' ' == 'P' || Q.squares.getD m.src ' ' == 'p' ||
  !IsEmptySquare m.capture

/-- The en-passant realness reduction in `GetRepetitionCount`: an en-passant
target square is kept only if an enemy pawn actually stands ready to execute
the capture; otherwise it is reduced to `SQUARE_INVALID` (64).  The branch
structure follows the source (a6 = 16, b6..g6 = 17..22, h6 = 23, a3 = 40,
b3..g3 = 41..46, h3 = 47; SE = +9, SW = +7, NE = -7, NW = -9). -/
def epRealSquare (squ : List Char) (ep : Nat) : Nat :=
  let real : Bool :=
    if ep = 16 then squ.getD (ep + 9) ' ' == 'P'
    else if 17 ≤ ep ∧ ep ≤ 22 then
      squ.getD (ep + 7) ' ' == 'P' || squ.getD (ep + 9) ' ' == 'P'
    else if ep = 23 then squ.getD (ep + 7) ' ' == 'P'
    else if ep = 40 then squ.getD (ep - 7) ' ' == 'p'
    else if 41 ≤ ep ∧ ep ≤ 46 then
      squ.getD (ep - 7) ' ' == 'p' || squ.getD (ep - 9) ' ' == 'p'
    else if ep = 47 then squ.getD (ep - 9) ' ' == 'p'
    else false
  if real then ep else 64

/-- The castling-flags validation in `GetRepetitionCount`: for each of the
four wings, compare "king and rook on home squares and flag set" between the
saved position (`sq0`, `tmp`) and the popped position (`cur`, `d`); any
difference revokes the match. -/
def castlingRevoke (sq0 cur : List Char) (tmp d : DETAIL) : Bool :=
  let wking_saved := sq0.getD 60 ' ' == 'K' && sq0.getD 63 ' ' == 'R' && tmp.wking
  let wking_now := cur.getD 60 ' ' == 'K' && cur.getD 63 ' ' == 'R' && d.wking
  let bking_saved := sq0.getD 4 ' ' == 'k' && sq0.getD 7 ' ' == 'r' && tmp.bking
  let bking_now := cur.getD 4 ' ' == 'k' && cur.getD 7 ' ' == 'r' && d.bking
  let wqueen_saved := sq0.getD 60 ' ' == 'K' && sq0.getD 56 ' ' == 'R' && tmp.wqueen
  let wqueen_now := cur.getD 60 ' ' == 'K' && cur.getD 56 ' ' == 'R' && d.wqueen
  let bqueen_saved := sq0.getD 4 ' ' == 'k' && sq0.getD 0 ' ' == 'r' && tmp.bqueen
  let bqueen_now := cur.getD 4 ' ' == 'k' && cur.getD 0 ' ' == 'r' && d.bqueen
  wking_saved != wking_now || bking_saved != bking_now ||
  wqueen_saved != wqueen_now || bqueen_saved != bqueen_now

/-- The quick first filter of `GetRepetitionCount`: same side to move, same
king squares, identical board. -/
def rawRepMatch (sq0 : List Char) (w0 : Bool) (tmp : DETAIL) (Q : Position) : Bool :=
  Q.white == w0 && Q.d.wking_square == tmp.wking_square &&
  Q.d.bking_square == tmp.bking_square && Q.squares == sq0

/-- The net contribution (0 or 1) of one popped position to the
`GetRepetitionCount` match counter (`matches++` possibly followed by
`matches--` on a revoked match). -/
def repContribution (sq0 : List Char) (w0 : Bool) (tmp : DETAIL) (Q : Position) : Nat :=
  if rawRepMatch sq0 w0 tmp Q then
    if Q.d = tmp then 1
    else
      let epRevoke : Prop :=
        if Q.d.enpassant_target ≠ tmp.enpassant_target then
          epRealSquare sq0 tmp.enpassant_target ≠
            epRealSquare Q.squares Q.d.enpassant_target
        else False
      if epRevoke ∨ (¬epRevoke ∧ eq_castling Q.d tmp = false ∧
          castlingRevoke sq0 Q.squares tmp Q.d = true) then 0 else 1
  else 0

instance (sq0 : List Char) (w0 : Bool) (tmp : DETAIL) (Q : Position) :
    Decidable (if Q.d.enpassant_target ≠ tmp.enpassant_target then
      epRealSquare sq0 tmp.enpassant_target ≠
        epRealSquare Q.squares Q.d.enpassant_target
    else False) := by
  split <;> infer_instance

/-- The backwards search loop of `GetRepetitionCount`, with its fuel
(`nbr_half_moves`), popping from the history (most recent first) and
abandoning the search after crossing a pawn move or capture. -/
def repLoop (sq0 : List Char) (w0 : Bool) (tmp : DETAIL) :
    Nat → List Move → Position → Nat
  | 0, _, _ => 0
  | _ + 1, [], _ => 0
  | n + 1, m :: rest, Q =>
    let Q' := PopMove Q m
    let c := repContribution sq0 w0 tmp Q'
    if isPawnOrCaptureAfterPop Q' m then c
    else c + repLoop sq0 w0 tmp n rest Q'

/-- `nbr_half_moves` at the top of `GetRepetitionCount`: in the C++ the
expression `(full_move_count - 1) * 2 + (!white ? 1 : 0)` is computed in a
`size_t`, so a zero `full_move_count` wraps to a huge value and the
subsequent `min`s select the history/stack length. -/
def repLimit (P : Position) : Nat :=
  let base := min P.history.length P.detail_stack.length
  if P.full_move_count = 0 then base
  else min ((P.full_move_count - 1) * 2 + (if !P.white then 1 else 0)) base

/-- `ChessRules::GetRepetitionCount` (the final `+1` counts the current
position itself). -/
def GetRepetitionCount (P : Position) : Nat :=
  repLoop P.squares P.white P.d (repLimit P) P.history P + 1

/-- `ChessRules::IsDraw`: insufficient material first, then the 50-move
rule, then threefold repetition. -/
def IsDraw (P : Position) (white_asks : Bool) : Bool × DRAWTYPE :=
  if (IsInsufficientDraw P white_asks).1 then IsInsufficientDraw P white_asks
  else if 100 ≤ P.half_move_clock then (true, DRAWTYPE_50MOVE)
  else if 3 ≤ GetRepetitionCount P then (true, DRAWTYPE_REPITITION)
  else (false, NOT_DRAW)

theorem insuffDecision_ne_50move (r : Nat × Bool × Bool × Bool) (asks : Bool) :
    (insuffDecision r asks).2 ≠ DRAWTYPE_50MOVE := by
  unfold insuffDecision
  split_ifs <;> simp

theorem IsInsufficientDraw_ne_50move (P : Position) (asks : Bool) :
    (IsInsufficientDraw P asks).2 ≠ DRAWTYPE_50MOVE :=
  insuffDecision_ne_50move _ _

/-- Claim C9: the move-playing entry point resets the half-move clock to 0
on any pawn move or capture and increments it otherwise; the 50-move draw is
reported exactly when the half-move clock has reached 100 (when no
insufficient-material draw pre-empts it, the draw is typed
`DRAWTYPE_50MOVE`); and immediately after a pawn move or capture the 50-move
claim is unavailable. -/
theorem c9_halfmove_clock_and_50move_rule (P : Position) (m : Move) (asks : Bool) :
    ((PlayMove P m).half_move_clock =
      (if P.squares.getD m.src ' ' = 'P' ∨ P.squares.getD m.src ' ' = 'p' ∨
          m.capture ≠ ' '
       then 0 else P.half_move_clock + 1)) ∧
    (IsDraw P asks = (true, DRAWTYPE_50MOVE) → 100 ≤ P.half_move_clock) ∧
    (100 ≤ P.half_move_clock → (IsDraw P asks).1 = true) ∧
    ((IsInsufficientDraw P asks).1 = false →
      (IsDraw P asks = (true, DRAWTYPE_50MOVE) ↔ 100 ≤ P.half_move_clock)) ∧
    ((P.squares.getD m.src ' ' = 'P' ∨ P.squares.getD m.src ' ' = 'p' ∨
        m.capture ≠ ' ') →
      IsDraw (PlayMove P m) asks ≠ (true, DRAWTYPE_50MOVE)) := by
  have hclock : (PlayMove P m).half_move_clock =
      (if P.squares.getD m.src ' ' = 'P' ∨ P.squares.getD m.src ' ' = 'p' ∨
          m.capture ≠ ' '
       then 0 else P.half_move_clock + 1) := by
    show (if P.squares.getD m.src ' ' = 'P' ∨ P.squares.getD m.src ' ' = 'p' then 0
          else if !IsEmptySquare m.capture then 0
          else P.half_move_clock + 1) = _
    simp only [IsEmptySquare]
    split_ifs <;> simp_all
  refine ⟨hclock, ?_, ?_, ?_, ?_⟩
  · intro h
    unfold IsDraw at h
    split_ifs at h with h1 h2 h3
    · exact absurd (congrArg Prod.snd h) (IsInsufficientDraw_ne_50move P asks)
    · exact h2
    · simp at h
    · simp at h
  · intro h
    unfold IsDraw
    split_ifs with h1 h2
    · exact h1
    · rfl
  · intro hins
    constructor
    · intro h
      unfold IsDraw at h
      split_ifs at h with h1 h2 h3
      · exact absurd h1 (by simp [hins])
      · exact h2
      · simp at h
      · simp at h
    · intro h
      unfold IsDraw
      rw [if_neg (by simp [hins]), if_pos h]
  · intro hpc h
    have hz : (PlayMove P m).half_move_clock = 0 := by
      rw [hclock, if_pos hpc]
    unfold IsDraw at h
    split_ifs at h with h1 h2 h3
    · exact absurd (congrArg Prod.snd h)
        (IsInsufficientDraw_ne_50move (PlayMove P m) asks)
    · omega
    · simp at h
    · simp at h

/-- King and rook versus king with the half-move clock at 100. -/
def krk100Position : Position :=
  { krkPosition with half_move_clock := 100 }

theorem c9_halfmove_clock_and_50move_rule_witness :
    (IsInsufficientDraw krk100Position false).1 = false ∧
    IsDraw krk100Position false = (true, DRAWTYPE_50MOVE) ∧
    (PlayMove krkPosition ⟨63, 7, NOT_SPECIAL, ' '⟩).half_move_clock =
      krkPosition.half_move_clock + 1 := by
  refine ⟨by decide, ?_, ?_⟩
  · exact ((c9_halfmove_clock_and_50move_rule krk100Position
      ⟨63, 7, NOT_SPECIAL, ' '⟩ false).2.2.2.1 (by decide)).mpr (by decide)
  · rw [(c9_halfmove_clock_and_50move_rule krkPosition
      ⟨63, 7, NOT_SPECIAL, ' '⟩ false).1]
    decide

/-! ## Claim C3: repetition counting -/

/-- The positions visited walking the history backward, pairing each with
the move that was popped to reach it. -/
def popTraceRec : List Move → Position → List (Position × Move)
  | [], _ => []
  | m :: rest, Q =>
    (PopMove Q m, m) :: popTraceRec rest (PopMove Q m)

/-- Spec-side walk: the prior positions reached strictly before the walk
crosses a pawn move or a capture (a ply reached by popping a pawn move or a
capture is already on the far side of the crossing and is not counted). -/
def takeBeforeCross : List (Position × Move) → List Position
  | [] => []
  | (Q, m) :: rest =>
    if isPawnOrCaptureAfterPop Q m then [] else Q :: takeBeforeCross rest

/-- Spec-side effective-rights test for one wing: the castling right is
effective only if king and rook are both still on their home squares and the
flag is set. -/
def effectiveRight (sqs : List Char) (ksq rsq : Nat) (kc rc : Char)
    (flag : Bool) : Bool :=
  sqs.getD ksq ' ' == kc && sqs.getD rsq ' ' == rc && flag

/-- Spec-side equivalence of a prior position with the current one, as the
claim words it: identical board layout, king squares and side to move; an
en-passant target difference is tolerated only when neither target is real
(reduction to the same realified target); a castling-flags difference is
tolerated only where the wing's king and rook are no longer both on their
home squares (identical effective rights on all four wings). -/
def specRepEquivalent (cur prev : Position) : Bool :=
  prev.white == cur.white &&
  prev.d.wking_square == cur.d.wking_square &&
  prev.d.bking_square == cur.d.bking_square &&
  prev.squares == cur.squares &&
  (epRealSquare prev.squares prev.d.enpassant_target ==
   epRealSquare cur.squares cur.d.enpassant_target) &&
  (effectiveRight prev.squares 60 63 'K' 'R' prev.d.wking ==
   effectiveRight cur.squares 60 63 'K' 'R' cur.d.wking) &&
  (effectiveRight prev.squares 60 56 'K' 'R' prev.d.wqueen ==
   effectiveRight cur.squares 60 56 'K' 'R' cur.d.wqueen) &&
  (effectiveRight prev.squares 4 7 'k' 'r' prev.d.bking ==
   effectiveRight cur.squares 4 7 'k' 'r' cur.d.bking) &&
  (effectiveRight prev.squares 4 0 'k' 'r' prev.d.bqueen ==
   effectiveRight cur.squares 4 0 'k' 'r' cur.d.bqueen)

/-- Spec-side repetition count of prior plies, per the claim. -/
def specPriorRepetitions (P : Position) : Nat :=
  (takeBeforeCross (popTraceRec P.history P)).countP (specRepEquivalent P)

theorem repContribution_eq_spec (P Q : Position) :
    repContribution P.squares P.white P.d Q =
      (if specRepEquivalent P Q = true then 1 else 0) := by
  unfold repContribution
  by_cases hraw : rawRepMatch P.squares P.white P.d Q = true
  · rw [if_pos hraw]
    unfold rawRepMatch at hraw
    simp only [Bool.and_eq_true, beq_iff_eq] at hraw
    obtain ⟨⟨⟨hw, hwk⟩, hbk⟩, hsq⟩ := hraw
    by_cases hd : Q.d = P.d
    · rw [if_pos hd]
      have hspec : specRepEquivalent P Q = true := by
        unfold specRepEquivalent
        rw [hw, hwk, hbk, hsq, hd]
        simp
      rw [if_pos hspec]
    · rw [if_neg hd]
      have hepIff :
          (¬(if Q.d.enpassant_target ≠ P.d.enpassant_target then
              epRealSquare P.squares P.d.enpassant_target ≠
                epRealSquare Q.squares Q.d.enpassant_target
            else False)) ↔
          epRealSquare Q.squares Q.d.enpassant_target =
            epRealSquare P.squares P.d.enpassant_target := by
        by_cases ht : Q.d.enpassant_target = P.d.enpassant_target
        · rw [if_neg (by simp [ht])]
          constructor
          · intro _
            rw [hsq, ht]
          · intro _
            exact not_false
        · rw [if_pos ht]
          constructor
          · intro h
            omega
          · intro h
            omega
      have hpairs :
          (eq_castling Q.d P.d = true ∨
           castlingRevoke P.squares Q.squares P.d Q.d = false) ↔
          (effectiveRight Q.squares 60 63 'K' 'R' Q.d.wking =
             effectiveRight P.squares 60 63 'K' 'R' P.d.wking ∧
           effectiveRight Q.squares 60 56 'K' 'R' Q.d.wqueen =
             effectiveRight P.squares 60 56 'K' 'R' P.d.wqueen ∧
           effectiveRight Q.squares 4 7 'k' 'r' Q.d.bking =
             effectiveRight P.squares 4 7 'k' 'r' P.d.bking ∧
           effectiveRight Q.squares 4 0 'k' 'r' Q.d.bqueen =
             effectiveRight P.squares 4 0 'k' 'r' P.d.bqueen) := by
        unfold eq_castling castlingRevoke effectiveRight
        rw [hsq]
        generalize (P.squares.getD 60 ' ' == 'K') = k60
        generalize (P.squares.getD 63 ' ' == 'R') = r63
        generalize (P.squares.getD 56 ' ' == 'R') = r56
        generalize (P.squares.getD 4 ' ' == 'k') = k4
        generalize (P.squares.getD 7 ' ' == 'r') = r7
        generalize (P.squares.getD 0 ' ' == 'r') = r0
        generalize Q.d.wking = qwk
        generalize P.d.wking = pwk
        generalize Q.d.wqueen = qwq
        generalize P.d.wqueen = pwq
        generalize Q.d.bking = qbk
        generalize P.d.bking = pbk
        generalize Q.d.bqueen = qbq
        generalize P.d.bqueen = pbq
        revert k60 r63 r56 k4 r7 r0 qwk pwk qwq pwq qbk pbk qbq pbq
        decide
      have hspecIff : specRepEquivalent P Q = true ↔
          (epRealSquare Q.squares Q.d.enpassant_target =
             epRealSquare P.squares P.d.enpassant_target ∧
           (effectiveRight Q.squares 60 63 'K' 'R' Q.d.wking =
              effectiveRight P.squares 60 63 'K' 'R' P.d.wking ∧
            effectiveRight Q.squares 60 56 'K' 'R' Q.d.wqueen =
              effectiveRight P.squares 60 56 'K' 'R' P.d.wqueen ∧
            effectiveRight Q.squares 4 7 'k' 'r' Q.d.bking =
              effectiveRight P.squares 4 7 'k' 'r' P.d.bking ∧
            effectiveRight Q.squares 4 0 'k' 'r' Q.d.bqueen =
              effectiveRight P.squares 4 0 'k' 'r' P.d.bqueen)) := by
        unfold specRepEquivalent
        rw [hw, hwk, hbk]
        nth_rewrite 1 [hsq]
        simp only [beq_self_eq_true, Bool.true_and, Bool.and_eq_true,
          beq_iff_eq]
        tauto
      have hE : (if Q.d.enpassant_target ≠ P.d.enpassant_target then
            epRealSquare P.squares P.d.enpassant_target ≠
              epRealSquare Q.squares Q.d.enpassant_target
          else False) ↔
          ¬(epRealSquare Q.squares Q.d.enpassant_target =
            epRealSquare P.squares P.d.enpassant_target) := by
        rw [← hepIff]
        exact not_not.symm
      have hCR : (eq_castling Q.d P.d = false ∧
          castlingRevoke P.squares Q.squares P.d Q.d = true) ↔
          ¬(effectiveRight Q.squares 60 63 'K' 'R' Q.d.wking =
              effectiveRight P.squares 60 63 'K' 'R' P.d.wking ∧
            effectiveRight Q.squares 60 56 'K' 'R' Q.d.wqueen =
              effectiveRight P.squares 60 56 'K' 'R' P.d.wqueen ∧
            effectiveRight Q.squares 4 7 'k' 'r' Q.d.bking =
              effectiveRight P.squares 4 7 'k' 'r' P.d.bking ∧
            effectiveRight Q.squares 4 0 'k' 'r' Q.d.bqueen =
              effectiveRight P.squares 4 0 'k' 'r' P.d.bqueen) := by
        rw [← hpairs]
        constructor
        · rintro ⟨h1, h2⟩ (h3 | h4)
          · exact absurd h3 (by simp [h1])
          · exact absurd h4 (by simp [h2])
        · intro h
          constructor
          · cases heqc : eq_castling Q.d P.d
            · rfl
            · exact absurd (Or.inl heqc) h
          · cases hcr : castlingRevoke P.squares Q.squares P.d Q.d
            · exact absurd (Or.inr hcr) h
            · rfl
      simp only []
      by_cases hs : specRepEquivalent P Q = true
      · rw [if_pos hs]
        obtain ⟨hepEq, hprs⟩ := hspecIff.mp hs
        rw [if_neg ?hneg]
        case hneg =>
          rintro (hE' | ⟨_, hc1, hc2⟩)
          · exact (hepIff.mpr hepEq) hE'
          · exact (hCR.mp ⟨hc1, hc2⟩) hprs
      · rw [if_neg hs]
        rw [if_pos ?hpos]
        case hpos =>
          by_cases hep : epRealSquare Q.squares Q.d.enpassant_target =
              epRealSquare P.squares P.d.enpassant_target
          · have hnp : ¬(effectiveRight Q.squares 60 63 'K' 'R' Q.d.wking =
                effectiveRight P.squares 60 63 'K' 'R' P.d.wking ∧
              effectiveRight Q.squares 60 56 'K' 'R' Q.d.wqueen =
                effectiveRight P.squares 60 56 'K' 'R' P.d.wqueen ∧
              effectiveRight Q.squares 4 7 'k' 'r' Q.d.bking =
                effectiveRight P.squares 4 7 'k' 'r' P.d.bking ∧
              effectiveRight Q.squares 4 0 'k' 'r' Q.d.bqueen =
                effectiveRight P.squares 4 0 'k' 'r' P.d.bqueen) :=
              fun hp => hs (hspecIff.mpr ⟨hep, hp⟩)
            exact Or.inr ⟨hepIff.mpr hep, hCR.mpr hnp⟩
          · exact Or.inl (hE.mpr hep)
  · rw [if_neg hraw]
    have hspec : ¬(specRepEquivalent P Q = true) := by
      intro hs
      apply hraw
      unfold specRepEquivalent at hs
      unfold rawRepMatch
      simp only [Bool.and_eq_true] at hs ⊢
      exact ⟨⟨⟨hs.1.1.1.1.1.1.1.1, hs.1.1.1.1.1.1.1.2⟩,
        hs.1.1.1.1.1.1.2⟩, hs.1.1.1.1.1.2⟩
    rw [if_neg hspec]

theorem repContribution_of_not_raw (sq0 : List Char) (w0 : Bool) (tmp : DETAIL)
    (Q : Position) (h : rawRepMatch sq0 w0 tmp Q = false) :
    repContribution sq0 w0 tmp Q = 0 := by
  unfold repContribution
  rw [if_neg (by simp [h])]

theorem repLoop_spec (P0 : Position) (ms : List Move) :
    ∀ (Q : Position),
      (∀ pr ∈ popTraceRec ms Q, isPawnOrCaptureAfterPop pr.1 pr.2 = true →
        rawRepMatch P0.squares P0.white P0.d pr.1 = false) →
      repLoop P0.squares P0.white P0.d ms.length ms Q =
        (takeBeforeCross (popTraceRec ms Q)).countP (specRepEquivalent P0) := by
  induction ms with
  | nil => intro Q _; rfl
  | cons m rest ih =>
    intro Q hcross
    simp only [List.length_cons]
    rw [repLoop, popTraceRec, takeBeforeCross]
    by_cases hc : isPawnOrCaptureAfterPop (PopMove Q m) m = true
    · rw [if_pos hc, if_pos hc]
      have hraw := hcross (PopMove Q m, m)
        (by rw [popTraceRec]; exact List.mem_cons_self _ _) hc
      rw [repContribution_of_not_raw _ _ _ _ hraw]
      rfl
    · rw [if_neg hc, if_neg hc]
      rw [List.countP_cons]
      rw [ih (PopMove Q m) (fun pr hpr hp => hcross pr
        (by rw [popTraceRec]; exact List.mem_cons_of_mem _ hpr) hp)]
      rw [repContribution_eq_spec P0 (PopMove Q m)]
      by_cases hs : specRepEquivalent P0 (PopMove Q m) = true
      · first
        | (simp [hs]; omega)
        | simp [hs]
      · first
        | (simp [hs]; omega)
        | simp [hs]

/-- Claim C3: on a position whose detail stack parallels its history, whose
full-move counter covers the history (both hold for every position built by
playing moves from a start position), and in which no position reached by
popping a pawn move or a capture passes the raw board/side/kings filter (the
position on the far side of an irreversible move can never equal the current
board in a consistent game), `GetRepetitionCount` returns 1 (the current
position) plus the number of prior plies, walking the history backward and
stopping at the first pawn move or capture, that are effectively equivalent
to the current position: same board, king squares and side to move, with
en-passant-target differences tolerated only when no enemy pawn could
actually execute the capture, and castling-flag differences tolerated only
on wings whose king and rook are no longer both on their home squares. -/
theorem c3_repetition_count_effective_equivalence (P : Position)
    (hstack : P.detail_stack.length = P.history.length)
    (hfmc : P.full_move_count = 0 ∨
      P.history.length ≤ (P.full_move_count - 1) * 2 +
        (if !P.white then 1 else 0))
    (hcross : ∀ pr ∈ popTraceRec P.history P,
      isPawnOrCaptureAfterPop pr.1 pr.2 = true →
      rawRepMatch P.squares P.white P.d pr.1 = false) :
    GetRepetitionCount P = 1 + specPriorRepetitions P := by
  have hlim : repLimit P = P.history.length := by
    unfold repLimit
    rw [hstack, Nat.min_self]
    split_ifs with hz hw
    · rfl
    · rcases hfmc with h | h
      · exact absurd h hz
      · rw [if_pos hw] at h
        exact Nat.min_eq_right h
    · rcases hfmc with h | h
      · exact absurd h hz
      · rw [if_neg hw] at h
        exact Nat.min_eq_right h
  unfold GetRepetitionCount specPriorRepetitions
  rw [hlim, repLoop_spec P P.history P hcross]
  omega

/-- Bare kings on their home squares with all four castling flags still set
(the rooks are gone, so no right is effective). -/
def kingsShuffleStart : Position :=
  { squares :=
      "    k                                                       K   ".toList,
    white := true,
    d := { wking_square := 60, bking_square := 4,
           wking := true, wqueen := true, bking := true, bqueen := true,
           enpassant_target := 64 },
    detail_stack := [], history := [], half_move_clock := 0,
    full_move_count := 1 }

/-- Both kings step out and back: the returns to e1/e8 clear the castling
flags, so the resulting position repeats the start with different raw flags
but identical effective rights. -/
def kingsShufflePosition : Position :=
  PlayMove (PlayMove (PlayMove (PlayMove kingsShuffleStart
    ⟨60, 59, SPECIAL_KING_MOVE, ' '⟩)
    ⟨4, 3, SPECIAL_KING_MOVE, ' '⟩)
    ⟨59, 60, SPECIAL_KING_MOVE, ' '⟩)
    ⟨3, 4, SPECIAL_KING_MOVE, ' '⟩

theorem c3_repetition_count_effective_equivalence_witness :
    kingsShufflePosition.detail_stack.length =
      kingsShufflePosition.history.length ∧
    (kingsShufflePosition.full_move_count = 0 ∨
      kingsShufflePosition.history.length ≤
        (kingsShufflePosition.full_move_count - 1) * 2 +
          (if !kingsShufflePosition.white then 1 else 0)) ∧
    (∀ pr ∈ popTraceRec kingsShufflePosition.history kingsShufflePosition,
      isPawnOrCaptureAfterPop pr.1 pr.2 = true →
      rawRepMatch kingsShufflePosition.squares kingsShufflePosition.white
        kingsShufflePosition.d pr.1 = false) ∧
    specPriorRepetitions kingsShufflePosition = 1 ∧
    GetRepetitionCount kingsShufflePosition =
      1 + specPriorRepetitions kingsShufflePosition :=
  ⟨by decide, Or.inr (by decide), by decide, by decide,
   c3_repetition_count_effective_equivalence kingsShufflePosition (by decide)
     (Or.inr (by decide)) (by decide)⟩

/-! ## Claim C7: structural position legality (`ChessRules::IsLegal`) -/

/-- The `wkings` counter of the `ChessRules::IsLegal` board loop. -/
def legalWkings (sqs : List Char) : Nat :=
  (List.range 64).countP (fun sq => sqs.getD sq ' ' == 'K')

/-- The `bkings` counter of the `ChessRules::IsLegal` board loop. -/
def legalBkings (sqs : List Char) : Nat :=
  (List.range 64).countP (fun sq => sqs.getD sq ' ' == 'k')

/-- The `wpawns` counter of the `ChessRules::IsLegal` board loop. -/
def legalWpawns (sqs : List Char) : Nat :=
  (List.range 64).countP (fun sq => sqs.getD sq ' ' == 'P')

/-- The `bpawns` counter of the `ChessRules::IsLegal` board loop. -/
def legalBpawns (sqs : List Char) : Nat :=
  (List.range 64).countP (fun sq => sqs.getD sq ' ' == 'p')

/-- The `wpieces` counter (white non-pawns, king included). -/
def legalWpieces (sqs : List Char) : Nat :=
  (List.range 64).countP
    (fun sq => IsWhite (sqs.getD sq ' ') && !(sqs.getD sq ' ' == 'P'))

/-- The `bpieces` counter (black non-pawns, king included). -/
def legalBpieces (sqs : List Char) : Nat :=
  (List.range 64).countP
    (fun sq => IsBlack (sqs.getD sq ' ') && !(sqs.getD sq ' ' == 'p'))

/-- The `IR_PAWN_POSITION` test of the loop: a pawn on `rank == 0` or
`rank == 7`, where the loop's `rank` for square `sq` is `7 - sq / 8`. -/
def legalPawnBad (sqs : List Char) : Bool :=
  (List.range 64).any (fun sq =>
    (sqs.getD sq ' ' == 'P' || sqs.getD sq ' ' == 'p') &&
    (7 - sq / 8 == 0 || 7 - sq / 8 == 7))

/-- `opposition_king_location`: the last square of the scan holding the king
of the side not to move, `SQUARE_INVALID` (64) if never seen. -/
def oppKingLoc (white : Bool) (sqs : List Char) : Nat :=
  (List.range 64).foldl
    (fun acc sq =>
      if sqs.getD sq ' ' == (if white then 'k' else 'K') then sq else acc) 64

/-- `ChessRules::IsLegal`: `legal` starts `true` and is cleared by each
failed check; the result is the conjunction of all checks passing. -/
def IsLegal (P : Position) : Bool :=
  !(legalPawnBad P.squares
    || !(legalWkings P.squares == 1)
    || !(legalBkings P.squares == 1)
    || (!(oppKingLoc P.white P.squares == 64) &&
        AttackedPiece P (oppKingLoc P.white P.squares))
    || (decide (8 < legalWpieces P.squares) &&
        decide (16 < legalWpieces P.squares + legalWpawns P.squares))
    || (decide (8 < legalBpieces P.squares) &&
        decide (16 < legalBpieces P.squares + legalBpawns P.squares))
    || decide (8 < legalWpawns P.squares)
    || decide (8 < legalBpawns P.squares))

theorem countP_split (l : List Char) (p q : Char → Bool) :
    l.countP p =
      l.countP (fun a => p a && q a) + l.countP (fun a => p a && !q a) := by
  induction l with
  | nil => simp
  | cons a t ih =>
    simp only [List.countP_cons]
    cases hp : p a <;> cases hq : q a <;> simp [hp, hq] <;> omega

/-- Splitting the white piece total into pawns and non-pawns. -/
theorem whiteTotal_split (l : List Char) :
    l.countP IsWhite =
      l.countP (fun c => c == 'P') +
      l.countP (fun c => IsWhite c && !(c == 'P')) := by
  rw [countP_split l IsWhite (fun c => c == 'P')]
  congr 1
  apply List.countP_congr
  intro a _
  cases ha : a == 'P'
  · simp [ha]
  · have h1 : a = 'P' := by simpa using ha
    subst h1
    decide

/-- Splitting the black piece total into pawns and non-pawns. -/
theorem blackTotal_split (l : List Char) :
    l.countP IsBlack =
      l.countP (fun c => c == 'p') +
      l.countP (fun c => IsBlack c && !(c == 'p')) := by
  rw [countP_split l IsBlack (fun c => c == 'p')]
  congr 1
  apply List.countP_congr
  intro a _
  cases ha : a == 'p'
  · simp [ha]
  · have h1 : a = 'p' := by simpa using ha
    subst h1
    decide

/-- C7: `IsLegal` reports a supplied layout illegal whenever the king count
of either side is not one, the king of the side not to move is attacked, a
side's total piece count exceeds 16, a side has more than 8 pawns, or a pawn
stands on the first or last rank; in particular a total piece count over 16
always makes the position illegal. -/
theorem c7_structural_illegality (P : Position)
    (hlen : P.squares.length = 64)
    (h :
      P.squares.countP (fun c => c == 'K') ≠ 1 ∨
      P.squares.countP (fun c => c == 'k') ≠ 1 ∨
      (oppKingLoc P.white P.squares ≠ 64 ∧
        AttackedPiece P (oppKingLoc P.white P.squares) = true) ∨
      16 < P.squares.countP IsWhite ∨
      16 < P.squares.countP IsBlack ∨
      8 < P.squares.countP (fun c => c == 'P') ∨
      8 < P.squares.countP (fun c => c == 'p') ∨
      (∃ sq, sq < 64 ∧
        (P.squares.getD sq ' ' = 'P' ∨ P.squares.getD sq ' ' = 'p') ∧
        (sq / 8 = 0 ∨ sq / 8 = 7))) :
    IsLegal P = false := by
  have hwk : legalWkings P.squares = P.squares.countP (fun c => c == 'K') := by
    unfold legalWkings
    exact countP_range_getD P.squares hlen (fun c => c == 'K')
  have hbk : legalBkings P.squares = P.squares.countP (fun c => c == 'k') := by
    unfold legalBkings
    exact countP_range_getD P.squares hlen (fun c => c == 'k')
  have hwp : legalWpawns P.squares = P.squares.countP (fun c => c == 'P') := by
    unfold legalWpawns
    exact countP_range_getD P.squares hlen (fun c => c == 'P')
  have hbp : legalBpawns P.squares = P.squares.countP (fun c => c == 'p') := by
    unfold legalBpawns
    exact countP_range_getD P.squares hlen (fun c => c == 'p')
  have hwpc : legalWpieces P.squares =
      P.squares.countP (fun c => IsWhite c && !(c == 'P')) := by
    unfold legalWpieces
    exact countP_range_getD P.squares hlen (fun c => IsWhite c && !(c == 'P'))
  have hbpc : legalBpieces P.squares =
      P.squares.countP (fun c => IsBlack c && !(c == 'p')) := by
    unfold legalBpieces
    exact countP_range_getD P.squares hlen (fun c => IsBlack c && !(c == 'p'))
  unfold IsLegal
  simp only [Bool.not_eq_false', Bool.or_eq_true, Bool.and_eq_true,
    Bool.not_eq_true', beq_iff_eq, beq_eq_false_iff_ne, decide_eq_true_eq]
  rcases h with h | h | ⟨h1, h2⟩ | h | h | h | h | ⟨sq, hsq, hpc, hr⟩
  · exact Or.inl (Or.inl (Or.inl (Or.inl (Or.inl (Or.inl (Or.inr
      (by rw [hwk]; exact h)))))))
  · exact Or.inl (Or.inl (Or.inl (Or.inl (Or.inl (Or.inr
      (by rw [hbk]; exact h))))))
  · exact Or.inl (Or.inl (Or.inl (Or.inl (Or.inr ⟨h1, h2⟩))))
  · rw [whiteTotal_split] at h
    by_cases hw8 : 8 < P.squares.countP (fun c => c == 'P')
    · exact Or.inl (Or.inr (by rw [hwp]; exact hw8))
    · exact Or.inl (Or.inl (Or.inl (Or.inr
        ⟨by rw [hwpc]; omega, by rw [hwpc, hwp]; omega⟩)))
  · rw [blackTotal_split] at h
    by_cases hb8 : 8 < P.squares.countP (fun c => c == 'p')
    · exact Or.inr (by rw [hbp]; exact hb8)
    · exact Or.inl (Or.inl (Or.inr
        ⟨by rw [hbpc]; omega, by rw [hbpc, hbp]; omega⟩))
  · exact Or.inl (Or.inr (by rw [hwp]; exact h))
  · exact Or.inr (by rw [hbp]; exact h)
  · refine Or.inl (Or.inl (Or.inl (Or.inl (Or.inl (Or.inl (Or.inl ?_)))))) 
    unfold legalPawnBad
    rw [List.any_eq_true]
    refine ⟨sq, List.mem_range.mpr hsq, ?_⟩
    rw [List.getD_eq_getElem?_getD] at hpc
    rcases hpc with hpc | hpc <;> rcases hr with hr | hr <;>
      simp [hpc, hr]

/-- A layout with 18 white pieces (king, nine knights, eight pawns): the
total white piece count exceeds 16. -/
def tooManyWhitePosition : Position :=
  { squares :=
      "    k   NNNNNNNNN                               PPPPPPPP    K   ".toList,
    white := true,
    d := { wking_square := 60, bking_square := 4,
           wking := false, wqueen := false, bking := false, bqueen := false,
           enpassant_target := 64 },
    detail_stack := [], history := [], half_move_clock := 0,
    full_move_count := 1 }

theorem c7_structural_illegality_witness :
    tooManyWhitePosition.squares.length = 64 ∧
    16 < tooManyWhitePosition.squares.countP IsWhite ∧
    IsLegal tooManyWhitePosition = false :=
  ⟨by decide, by decide,
   c7_structural_illegality tooManyWhitePosition (by decide)
     (Or.inr (Or.inr (Or.inr (Or.inl (by decide)))))⟩

/-! ## Claim C6: SAN move resolution (`ChessRules::san_move`) -/

/-- ASCII lower-casing as used by `strcmp_ignore` (header missing from the
sources; modelled from the spec). -/
def lowerChar (c : Char) : Char :=
  if 'A' ≤ c && c ≤ 'Z' then Char.ofNat (c.toNat + 32) else c

/-- A file letter test, `'a' <= c && c <= 'h'`. -/
def isFileChar (c : Char) : Bool := 'a' ≤ c && c ≤ 'h'

/-- A rank digit test, `'1' <= c && c <= '8'`. -/
def isRankChar (c : Char) : Bool := '1' ≤ c && c ≤ '8'

/-- `isascii && isalnum` restricted to ASCII letters and digits. -/
def isAlnumChar (c : Char) : Bool :=
  ('a' ≤ c && c ≤ 'z') || ('A' ≤ c && c ≤ 'Z') || ('0' ≤ c && c ≤ '9')

/-- The repeated "trim string from end" loop of `san_move`: strip trailing
non-alphanumeric characters. -/
def dropTrailingNonAlnum (l : List Char) : List Char :=
  (l.reverse.dropWhile (fun c => !isAlnumChar c)).reverse

/-- The terminators recognised by the copy loop at the top of `san_move`. -/
def isSanTerminator (c : Char) : Bool :=
  c == ' ' || c == '\t' || c == '\r' || c == '\n' || c == '\x00'

/-- The `SQ(file, rank)` macro (header missing from the sources; modelled
from the spec): a8 is 0, h1 is 63. -/
def sqOfFR (f r : Char) : Nat :=
  ('8'.toNat - r.toNat) * 8 + (f.toNat - 'a'.toNat)

/-- The `FILE(sq)` macro (header missing from the sources; modelled from the
spec). -/
def fileOfSq (sq : Nat) : Char := Char.ofNat ('a'.toNat + sq % 8)

/-- The `RANK(sq)` macro (header missing from the sources; modelled from the
spec). -/
def rankOfSq (sq : Nat) : Char := Char.ofNat ('1'.toNat + (7 - sq / 8 % 8))

/-- The parsing state of `ChessRules::san_move` just before the "check
against all possible moves" section: the mangled move buffer plus the
piece/source/destination/castling/en-passant/promotion variables. A `'\x00'`
character marks an unset field, exactly as in the C. -/
structure ParsedSan where
  move : List Char
  piece : Char
  default_piece : Bool
  src_file : Char
  src_rank : Char
  dst_file : Char
  dst_rank : Char
  dst_ : Nat
  kcastling : Bool
  qcastling : Bool
  enpassant : Bool
  promotion : Char
deriving DecidableEq, Repr

/-- The string-mangling first half of `ChessRules::san_move`: copy into the
10-byte buffer (failing when no terminator fits), trim non-alphanumerics
from the end and blanks from the start, strip an `ep`/`e.p` suffix, strip a
promotion suffix, rewrite castling notation, then read off destination and
source/piece. `none` is `okay == false`. -/
def sanParse (white : Bool) (input : List Char) : Option ParsedSan :=
  let pre := input.takeWhile (fun c => !isSanTerminator c)
  if 10 ≤ pre.length then none else
  let m1 := dropTrailingNonAlnum pre
  let m2 := m1.dropWhile (fun c => c == ' ' || c == '\t')
  let s3 :=
    if 2 ≤ m2.length ∧ m2.getD (m2.length - 1) ' ' = 'p' then
      if m2.drop (m2.length - 2) = ['e', 'p'] then
        (dropTrailingNonAlnum (m2.take (m2.length - 2)), true)
      else if 3 ≤ m2.length ∧ m2.drop (m2.length - 3) = ['e', '.', 'p'] then
        (dropTrailingNonAlnum (m2.take (m2.length - 3)), true)
      else (dropTrailingNonAlnum m2, false)
    else (m2, false)
  let m3 := s3.1
  let enpassant := s3.2
  let pstep : Option (List Char × Char) :=
    if 2 < m3.length then
      let last := m3.getD (m3.length - 1) ' '
      if isRankChar last then some (m3, '\x00')
      else
        let promo : Option Char :=
          if last = 'O' ∨ last = 'o' then some '\x00'
          else if last = 'q' ∨ last = 'Q' then some 'Q'
          else if last = 'r' ∨ last = 'R' then some 'R'
          else if last = 'b' ∧ m3.length = 3 ∧
                  '2' ≤ m3.getD 1 ' ' ∧ m3.getD 1 ' ' ≤ '7' then some '\x00'
          else if last = 'b' ∨ last = 'B' then some 'B'
          else if last = 'n' ∨ last = 'N' then some 'N'
          else none
        match promo with
        | none => none
        | some p =>
          if p = '\x00' then some (m3, '\x00')
          else
            let c2 := m3.getD (m3.length - 2) ' '
            if c2 = '=' ∨ c2 = '1' ∨ c2 = '8' then
              some (dropTrailingNonAlnum (m3.take (m3.length - 1)), p)
            else none
    else some (m3, '\x00')
  match pstep with
  | none => none
  | some (m4, promotion) =>
    let lower4 := m4.map lowerChar
    let s5 : List Char × Char × Bool × Bool × Bool :=
      if lower4 = ['o', 'o'] ∨ lower4 = ['o', '-', 'o'] then
        ((if white then ['e', '1', 'g', '1'] else ['e', '8', 'g', '8']),
         (if white then 'K' else 'k'), false, true, false)
      else if lower4 = ['o', 'o', 'o'] ∨ lower4 = ['o', '-', 'o', '-', 'o'] then
        ((if white then ['e', '1', 'c', '1'] else ['e', '8', 'c', '8']),
         (if white then 'K' else 'k'), false, false, true)
      else (m4, (if white then 'P' else 'p'), true, false, false)
    match s5 with
    | (m5, piece0, default0, kcast, qcast) =>
      let len := m5.length
      let dstep : Option (Char × Char × Char × Nat) :=
        if len = 2 ∧ isFileChar (m5.getD 0 ' ') ∧ isFileChar (m5.getD 1 ' ') then
          some (m5.getD 0 ' ', m5.getD 1 ' ', '\x00', 0)
        else if len = 3 ∧ isFileChar (m5.getD 0 ' ') ∧
                '2' ≤ m5.getD 1 ' ' ∧ m5.getD 1 ' ' ≤ '7' ∧
                isFileChar (m5.getD 2 ' ') then
          some (m5.getD 0 ' ', m5.getD 2 ' ', '\x00', 0)
        else if 2 ≤ len ∧ isFileChar (m5.getD (len - 2) ' ') ∧
                isRankChar (m5.getD (len - 1) ' ') then
          some ('\x00', m5.getD (len - 2) ' ', m5.getD (len - 1) ' ',
                sqOfFR (m5.getD (len - 2) ' ') (m5.getD (len - 1) ' '))
        else none
      match dstep with
      | none => none
      | some (sf0, df, dr, dsq) =>
        let sstep : Option (Char × Char × Char × Bool) :=
          if 2 < len then
            if isFileChar (m5.getD 0 ' ') ∧ isRankChar (m5.getD 1 ' ') then
              some (m5.getD 0 ' ', m5.getD 1 ' ', piece0, default0)
            else
              let pstep2 : Option (Char × Char × Bool) :=
                if m5.getD 0 ' ' = 'K' then
                  some (sf0, (if white then 'K' else 'k'), false)
                else if m5.getD 0 ' ' = 'Q' then
                  some (sf0, (if white then 'Q' else 'q'), false)
                else if m5.getD 0 ' ' = 'R' then
                  some (sf0, (if white then 'R' else 'r'), false)
                else if m5.getD 0 ' ' = 'N' then
                  some (sf0, (if white then 'N' else 'n'), false)
                else if m5.getD 0 ' ' = 'P' then
                  some (sf0, (if white then 'P' else 'p'), false)
                else if m5.getD 0 ' ' = 'B' then
                  some (sf0, (if white then 'B' else 'b'), false)
                else if isFileChar (m5.getD 0 ' ') then
                  some (m5.getD 0 ' ', piece0, default0)
                else none
              match pstep2 with
              | none => none
              | some (sf1, pc1, dp1) =>
                if 3 < len ∧ sf1 = '\x00' then
                  if isRankChar (m5.getD 1 ' ') then
                    some (sf1, m5.getD 1 ' ', pc1, dp1)
                  else if isFileChar (m5.getD 1 ' ') then
                    if 4 < len ∧ isRankChar (m5.getD 2 ' ') then
                      some (m5.getD 1 ' ', m5.getD 2 ' ', pc1, dp1)
                    else some (m5.getD 1 ' ', '\x00', pc1, dp1)
                  else some (sf1, '\x00', pc1, dp1)
                else some (sf1, '\x00', pc1, dp1)
          else some (sf0, '\x00', piece0, default0)
        match sstep with
        | none => none
        | some (sf, sr, pc, dp) =>
          some { move := m5, piece := pc, default_piece := dp,
                 src_file := sf, src_rank := sr, dst_file := df,
                 dst_rank := dr, dst_ := dsq, kcastling := kcast,
                 qcastling := qcast, enpassant := enpassant,
                 promotion := promotion }

/-- The second half of `ChessRules::san_move`: pick the resolution loop
matching the populated fields, take the FIRST legal move matching it (each
loop ends in `break`), apply the castling/en-passant tag filters to that
first match only, then the promotion fixup. `none` is the thrown
`Invalid SAN move` error. -/
def sanResolve (P : Position) (pr0 : ParsedSan) : Option Move :=
  let list := GenLegalMoveList P
  let pr := if pr0.enpassant then
      { pr0 with src_rank := '\x00', dst_rank := '\x00' } else pr0
  let found : Option Move :=
    if pr.src_file ≠ '\x00' ∧ pr.src_rank ≠ '\x00' ∧
       pr.dst_file ≠ '\x00' ∧ pr.dst_rank ≠ '\x00' then
      match list.find? (fun m =>
        (pr.default_piece || pr.piece == P.squares.getD m.src ' ') &&
        pr.src_file == fileOfSq m.src && pr.src_rank == rankOfSq m.src &&
        pr.dst_ == m.dst) with
      | none => none
      | some m =>
        if pr.kcastling then
          if m.special =
              (if P.white then SPECIAL_WK_CASTLING else SPECIAL_BK_CASTLING)
          then some m else none
        else if pr.qcastling then
          if m.special =
              (if P.white then SPECIAL_WQ_CASTLING else SPECIAL_BQ_CASTLING)
          then some m else none
        else some m
    else if pr.src_file ≠ '\x00' ∧ pr.dst_file ≠ '\x00' ∧
            pr.dst_rank ≠ '\x00' then
      list.find? (fun m =>
        pr.piece == P.squares.getD m.src ' ' &&
        pr.src_file == fileOfSq m.src && pr.dst_ == m.dst)
    else if pr.src_rank ≠ '\x00' ∧ pr.dst_file ≠ '\x00' ∧
            pr.dst_rank ≠ '\x00' then
      list.find? (fun m =>
        pr.piece == P.squares.getD m.src ' ' &&
        pr.src_rank == rankOfSq m.src && pr.dst_ == m.dst)
    else if pr.src_file ≠ '\x00' ∧ pr.src_rank ≠ '\x00' ∧
            pr.dst_file ≠ '\x00' then
      list.find? (fun m =>
        pr.piece == P.squares.getD m.src ' ' &&
        pr.src_file == fileOfSq m.src && pr.src_rank == rankOfSq m.src &&
        pr.dst_file == fileOfSq m.dst)
    else if pr.src_file ≠ '\x00' ∧ pr.dst_file ≠ '\x00' then
      match list.find? (fun m =>
        pr.piece == P.squares.getD m.src ' ' &&
        pr.src_file == fileOfSq m.src && pr.dst_file == fileOfSq m.dst) with
      | none => none
      | some m =>
        if pr.enpassant then
          if m.special =
              (if P.white then SPECIAL_WEN_PASSANT else SPECIAL_BEN_PASSANT)
          then some m else none
        else some m
    else if pr.dst_rank ≠ '\x00' ∧ pr.dst_file ≠ '\x00' then
      list.find? (fun m =>
        pr.piece == P.squares.getD m.src ' ' && pr.dst_ == m.dst)
    else none
  match found with
  | none => none
  | some m =>
    let fp :=
      m.special = SPECIAL_PROMOTION_QUEEN ∨ m.special = SPECIAL_PROMOTION_ROOK ∨
      m.special = SPECIAL_PROMOTION_BISHOP ∨ m.special = SPECIAL_PROMOTION_KNIGHT
    if pr.promotion ≠ '\x00' ∧ ¬fp then none
    else if h : fp then
      some { m with special :=
        if pr.promotion = 'R' then SPECIAL_PROMOTION_ROOK
        else if pr.promotion = 'B' then SPECIAL_PROMOTION_BISHOP
        else if pr.promotion = 'N' then SPECIAL_PROMOTION_KNIGHT
        else SPECIAL_PROMOTION_QUEEN }
    else some m

/-- `ChessRules::san_move`, parse composed with resolution. -/
def san_move (P : Position) (input : List Char) : Option Move :=
  match sanParse P.white input with
  | none => none
  | some pr => sanResolve P pr

/-- White knights on f3 (45) and b1 (57), so that the SAN input "Nd2" is
matched by two distinct legal moves. -/
def twoKnightsPosition : Position :=
  { squares :=
      "    k                                        N           N  K   ".toList,
    white := true,
    d := { wking_square := 60, bking_square := 4,
           wking := false, wqueen := false, bking := false, bqueen := false,
           enpassant_target := 64 },
    detail_stack := [], history := [], half_move_clock := 0,
    full_move_count := 1 }


/-- Parsing a piece-letter-plus-destination SAN string such as "Nd2" yields
the destination-only resolution form. -/
theorem sanParse_piece_dst (w : Bool) (pc f r : Char)
    (hpc : pc ∈ ['K', 'Q', 'R', 'N', 'B'])
    (hf : f ∈ ['a', 'b', 'c', 'd', 'e', 'f', 'g', 'h'])
    (hr : r ∈ ['1', '2', '3', '4', '5', '6', '7', '8']) :
    sanParse w [pc, f, r] =
      some { move := [pc, f, r], piece := (if w then pc else lowerChar pc),
             default_piece := false, src_file := '\x00', src_rank := '\x00',
             dst_file := f, dst_rank := r, dst_ := sqOfFR f r,
             kcastling := false, qcastling := false, enpassant := false,
             promotion := '\x00' } := by
  fin_cases hpc <;> fin_cases hf <;> fin_cases hr <;> cases w <;> rfl

/-- On a destination-only resolution form with a non-pawn piece letter, the
resolution returns exactly the first matching legal move. -/
theorem sanResolve_dst_only (P : Position) (hep : EpOK P)
    (mv : List Char) (pc f r : Char) (dst : Nat)
    (hf : f ≠ '\x00') (hr : r ≠ '\x00')
    (hpcP : pc ≠ 'P') (hpcp : pc ≠ 'p') :
    sanResolve P
      { move := mv, piece := pc, default_piece := false,
        src_file := '\x00', src_rank := '\x00',
        dst_file := f, dst_rank := r, dst_ := dst,
        kcastling := false, qcastling := false,
        enpassant := false, promotion := '\x00' } =
      (GenLegalMoveList P).find? (fun m =>
        pc == P.squares.getD m.src ' ' && dst == m.dst) := by
  unfold sanResolve
  simp only [ne_eq, not_true_eq_false, false_and, and_false, if_false,
    not_false_eq_true, and_true, true_and, if_neg, Bool.false_eq_true,
    ite_false]
  rw [if_pos ⟨hr, hf⟩]
  cases hfind : (GenLegalMoveList P).find?
      (fun m => pc == P.squares.getD m.src ' ' && dst == m.dst) with
  | none => rfl
  | some m =>
    have hmem : m ∈ GenLegalMoveList P := List.mem_of_find?_eq_some hfind
    have hmem' : m ∈ GenMoveList P :=
      (List.mem_filter.mp (by
        simpa [GenLegalMoveList, select_legal] using hmem)).1
    have hok := GenMoveList_moveOK P hep m hmem'
    have hpred := List.find?_some hfind
    simp only [Bool.and_eq_true, beq_iff_eq] at hpred
    have hnp : ¬(m.special = SPECIAL_PROMOTION_QUEEN ∨
        m.special = SPECIAL_PROMOTION_ROOK ∨
        m.special = SPECIAL_PROMOTION_BISHOP ∨
        m.special = SPECIAL_PROMOTION_KNIGHT) := by
      intro hsp
      have hsrc : P.squares.getD m.src ' ' = (if P.white then 'P' else 'p') := by
        rcases hsp with h | h | h | h <;> simp only [MoveOK, h] at hok <;>
          exact hok.2.2.1
      rcases hpred with ⟨hpc1, -⟩
      cases hw : P.white <;> rw [hw] at hsrc <;>
        simp only [Bool.false_eq_true, if_false, if_true] at hsrc
      · exact hpcp (hpc1.trans hsrc)
      · exact hpcP (hpc1.trans hsrc)
    simp only [dif_neg hnp]

/-- C6 (amended): on an under-specified piece-plus-destination SAN input the
resolver does NOT fail; it returns the first legal move in generation order
matching the piece letter and the destination square, whether or not that
match is unique. The original claim, that ambiguity yields a typed failure,
is refuted by `c6_ambiguous_san_counterexample`. -/
theorem c6_san_piece_destination_first_match (P : Position) (hep : EpOK P)
    (pc f r : Char)
    (hpc : pc ∈ ['K', 'Q', 'R', 'N', 'B'])
    (hf : f ∈ ['a', 'b', 'c', 'd', 'e', 'f', 'g', 'h'])
    (hr : r ∈ ['1', '2', '3', '4', '5', '6', '7', '8']) :
    san_move P [pc, f, r] =
      (GenLegalMoveList P).find? (fun m =>
        (if P.white then pc else lowerChar pc) == P.squares.getD m.src ' ' &&
        sqOfFR f r == m.dst) := by
  unfold san_move
  rw [sanParse_piece_dst P.white pc f r hpc hf hr]
  refine sanResolve_dst_only P hep [pc, f, r]
    (if P.white then pc else lowerChar pc) f r (sqOfFR f r) ?_ ?_ ?_ ?_
  · fin_cases hf <;> decide
  · fin_cases hr <;> decide
  · cases hw : P.white <;> fin_cases hpc <;> decide
  · cases hw : P.white <;> fin_cases hpc <;> decide

/-- C6 counterexample: with knights on f3 and b1, "Nd2" is matched by two
distinct legal moves, yet `san_move` succeeds and returns the first
(Nf3-d2) instead of failing. -/
theorem c6_ambiguous_san_counterexample :
    2 ≤ ((GenLegalMoveList twoKnightsPosition).filter (fun m =>
        twoKnightsPosition.squares.getD m.src ' ' == 'N' &&
        m.dst == 51)).length ∧
    san_move twoKnightsPosition ['N', 'd', '2'] =
      some { src := 45, dst := 51, special := NOT_SPECIAL, capture := ' ' } :=
  ⟨by decide, by decide⟩

theorem c6_san_piece_destination_first_match_witness :
    EpOK twoKnightsPosition ∧
    san_move twoKnightsPosition ['N', 'd', '2'] =
      (GenLegalMoveList twoKnightsPosition).find? (fun m =>
        (if twoKnightsPosition.white then 'N' else lowerChar 'N') ==
          twoKnightsPosition.squares.getD m.src ' ' &&
        sqOfFR 'd' '2' == m.dst) :=
  ⟨by decide, c6_san_piece_destination_first_match twoKnightsPosition
    (by decide) 'N' 'd' '2' (by decide) (by decide) (by decide)⟩
